import Mathlib

/-!
Verification of the IFF (Integrated Flight Format) reader
`read_iff_file` from `paraatm/io/iff_to_trx.py`.

The Python function is shallowly embedded here.  A file is modelled as its
list of physical lines (newlines stripped); third-party library behaviour
(`pkg_resources.parse_version`, `pandas.read_csv`, `pandas.to_datetime`,
`numpy.unique`) is modelled by executable Lean definitions that follow the
documented semantics of those libraries on the inputs this program feeds
them.  IEEE-754 rounding is abstracted: numeric cell values are rationals.
-/

/-- Decidable equality for `Except`, so that concrete decode runs can be
checked by `decide`. -/
instance {ε α : Type} [DecidableEq ε] [DecidableEq α] : DecidableEq (Except ε α) := fun a b =>
  match a, b with
  | .error x, .error y =>
    match decEq x y with
    | isTrue h => isTrue (by rw [h])
    | isFalse h => isFalse (by simp [h])
  | .error _, .ok _ => isFalse (by simp)
  | .ok _, .error _ => isFalse (by simp)
  | .ok x, .ok y =>
    match decEq x y with
    | isTrue h => isTrue (by rw [h])
    | isFalse h => isFalse (by simp [h])

namespace IffReader

/-! ## Character-list string primitives

Python's `str.split`, `str.strip`, `int(...)` and `float(...)` are modelled
on the underlying character list so that every definition reduces in the
kernel. -/

/-- Split a string at every occurrence of the separator character, like
Python's `str.split(sep)`: `"a,,b" ↦ ["a", "", "b"]` and `"" ↦ [""]`. -/
def splitChAux (sep : Char) : List Char → List Char → List String
  | [], acc => [String.mk acc.reverse]
  | c :: cs, acc =>
    if c = sep then String.mk acc.reverse :: splitChAux sep cs []
    else splitChAux sep cs (c :: acc)

/-- Split a string on a separator character (Python `str.split(sep)`). -/
def splitCh (sep : Char) (s : String) : List String :=
  splitChAux sep s.data []

/-- Strip leading and trailing whitespace (Python `str.strip()` restricted
to the ASCII whitespace that occurs in the data). -/
def trimChars (s : String) : String :=
  String.mk (((s.data.dropWhile Char.isWhitespace).reverse.dropWhile Char.isWhitespace).reverse)

/-- Value of a nonempty digit string, most significant digit first. -/
def digitsToNat (l : List Char) : ℕ :=
  l.foldl (fun n c => 10 * n + (c.toNat - 48)) 0

/-- Parse a nonempty all-digit string as a natural number. -/
def parseNatDigits (s : String) : Option ℕ :=
  if s.data.isEmpty then none
  else if s.data.all Char.isDigit then some (digitsToNat s.data)
  else none

/-- Python `int(...)` on the record-type token: optional surrounding
whitespace, optional sign, nonempty digit run.  (Underscored literals,
which never occur in IFF data, are not modelled.) -/
def parsePyInt (s : String) : Option ℤ :=
  match (trimChars s).data with
  | '-' :: rest =>
    if rest.isEmpty then none
    else if rest.all Char.isDigit then some (-(digitsToNat rest : ℤ))
    else none
  | '+' :: rest =>
    if rest.isEmpty then none
    else if rest.all Char.isDigit then some ((digitsToNat rest : ℤ))
    else none
  | t =>
    if t.isEmpty then none
    else if t.all Char.isDigit then some ((digitsToNat t : ℤ))
    else none

/-- Exact decimal number: mantissa `m` over `10 ^ e`.  `pandas` stores
numeric columns as binary64 floats; the model keeps the exact decimal the
float was parsed from (IEEE-754 rounding is abstracted away). -/
structure Dec where
  m : ℤ
  e : ℕ
deriving DecidableEq, Repr

/-- Rational value denoted by a `Dec`. -/
def Dec.toRat (d : Dec) : ℚ :=
  (d.m : ℚ) / (10 : ℚ) ^ d.e

/-- Negation of a decimal value. -/
def Dec.neg (d : Dec) : Dec :=
  ⟨-d.m, d.e⟩

/-- Multiplication by 100 (the altitude unit conversion applied by
`df['altitude'] *= 100`). -/
def Dec.mul100 (d : Dec) : Dec :=
  ⟨100 * d.m, d.e⟩

/-- Decimal number parsing as performed by `pandas.read_csv` column
inference and by `float(...)`: digits with an optional fractional part
(`"80"`, `"3.5"`, `".5"`, `"5."`).  Exponent, infinity and hexadecimal
float notations never occur in IFF data and are not modelled. -/
def parseUnsignedDecimal (s : String) : Option Dec :=
  match splitCh '.' s with
  | [w] => (parseNatDigits w).map (fun n => ⟨(n : ℤ), 0⟩)
  | [w, f] =>
    if w.isEmpty ∧ f.isEmpty then none
    else
      match (if w.isEmpty then some 0 else parseNatDigits w),
            (if f.isEmpty then some 0 else parseNatDigits f) with
      | some wn, some fn => some ⟨(wn : ℤ) * (10 : ℤ) ^ f.length + (fn : ℤ), f.length⟩
      | _, _ => none
  | _ => none

/-- Signed decimal parsing (see `parseUnsignedDecimal`). -/
def parseDecimal (s : String) : Option Dec :=
  match (trimChars s).data with
  | '-' :: rest => (parseUnsignedDecimal (String.mk rest)).map Dec.neg
  | '+' :: rest => parseUnsignedDecimal (String.mk rest)
  | t => parseUnsignedDecimal (String.mk t)

/-! ## Version parsing and ordering

`read_iff_file` imports `parse_version` from `pkg_resources` and compares
the file's version against `parse_version('2.13')` / `parse_version('2.15')`.
In the setuptools generation this repository targets, `parse_version`
accepts any string without raising: a PEP 440 string (optionally
`v`-prefixed, with pre/post/dev/local segments) parses as a `Version`, and
anything else falls back to a `LegacyVersion` that sorts below every
`Version`.  The model projects the parsed value to its release key, the
list of leading numeric components (a legacy string projects to the empty
key, which sorts below every nonzero release); comparison is the
`packaging` release ordering (trailing zero components are dropped, then
component tuples are compared lexicographically).  The pre/post/dev/epoch
refinement of the PEP 440 ordering is abstracted away by this projection;
it could change the 2.13/2.15 gating only for a pre-release or epoch-tagged
form of exactly those versions, which IFF headers never carry. -/

/-- The leading numeric release components of the dot-split version string:
whole-digit components, plus the digit prefix of the first mixed component
(so `"2.6rc1" ↦ [2, 6]`). -/
def releaseKey : List String → List ℕ
  | [] => []
  | comp :: rest =>
    if ¬ comp.data.isEmpty ∧ comp.data.all Char.isDigit then
      digitsToNat comp.data :: releaseKey rest
    else
      match comp.data.takeWhile Char.isDigit with
      | [] => []
      | ds => [digitsToNat ds]

/-- `pkg_resources.parse_version`, projected to the release key: strip
surrounding whitespace and an optional `v` prefix; a string starting with a
digit yields its leading numeric release components; any other string is a
legacy version, projected to the empty key (`LegacyVersion` sorts below
every release).  Total — repo-era `parse_version` never raises. -/
def parseVersion (s : String) : List ℕ :=
  let t := (trimChars s).data
  let t2 :=
    match t with
    | 'v' :: rest => rest
    | 'V' :: rest => rest
    | _ => t
  match t2 with
  | [] => []
  | c :: _ => if c.isDigit then releaseKey (splitCh '.' (String.mk t2)) else []

/-- Drop trailing zero components, as the `packaging` release key does
(`2.13.0` compares equal to `2.13`). -/
def dropTrailingZeros (l : List ℕ) : List ℕ :=
  (l.reverse.dropWhile (· = 0)).reverse

/-- Lexicographic order on component lists (Python tuple comparison:
a strict prefix is smaller). -/
def listLexLe : List ℕ → List ℕ → Bool
  | [], _ => true
  | _ :: _, [] => false
  | a :: as, b :: bs =>
    if a < b then true
    else if a = b then listLexLe as bs
    else false

/-- The version ordering used by the program: `packaging`'s release
comparison. -/
def versionLe (a b : List ℕ) : Bool :=
  listLexLe (dropTrailingZeros a) (dropTrailingZeros b)

/-- Modelled from the spec: "comparison is semantic (numeric, field-by-field),
not lexicographic on the raw string" — component-wise numeric comparison
where a missing component counts as zero.  Stated separately from
`versionLe` (which follows the library) so the two can be compared. -/
def specVersionLe : List ℕ → List ℕ → Bool
  | [], [] => true
  | [], b :: bs => if 0 < b then true else specVersionLe [] bs
  | a :: as, [] => if 0 < a then false else specVersionLe as []
  | a :: as, b :: bs =>
    if a < b then true
    else if a = b then specVersionLe as bs
    else false

/-- Raw-string lexicographic comparison of version strings (the ordering
the program must NOT use): character-by-character, shorter prefix first. -/
def strLexLt : List Char → List Char → Bool
  | [], [] => false
  | [], _ :: _ => true
  | _ :: _, [] => false
  | a :: as, b :: bs =>
    if a < b then true
    else if a = b then strLexLt as bs
    else false

/-! ## Data model -/

/-- A cell of a decoded table.  `na` is pandas' missing value (`NaN`/`NaT`),
`num` a numeric value, `str` a string value, `ts` a timestamp produced by
`pd.to_datetime(..., unit='s')` (held as epoch seconds). -/
inductive Cell where
  | na
  | num (d : Dec)
  | str (s : String)
  | ts (d : Dec)
deriving DecidableEq, Repr

/-- A decoded table: the column labels and the rows (row-major).  Every row
has exactly one cell per column. -/
structure DataFrame where
  header : List String
  rows : List (List Cell)
deriving DecidableEq, Repr

/-- Failure of the decode call.  Each constructor records which Python
exception it models: `formatError` the `IndexError` of version detection
and the `ValueError` of `int(...)` during classification,
`unknownRecordType` the `KeyError` on `cols[record_type]`, `keyError` the
`KeyError` on `chunk['AcId']`, `valueError` the `ValueError`s raised by
`pd.read_csv` (bad chunksize), `pd.concat` (no objects) and
`pd.to_datetime` (non-convertible value), `ioError` a missing file. -/
inductive DecodeError where
  | formatError (msg : String)
  | unknownRecordType (rt : ℤ)
  | keyError (col : String)
  | valueError (msg : String)
  | ioError (filename : String)
deriving DecidableEq, Repr

/-- The `record_types` argument: a scalar code, an explicit list of codes,
or the sentinel `'all'`. -/
inductive RecordTypesArg where
  | scalar (rt : ℤ)
  | listArg (rts : List ℤ)
  | all
deriving DecidableEq, Repr

/-- The `callsigns` argument: `None`, one string, or a list of strings. -/
inductive CallsignsArg where
  | noCalls
  | one (s : String)
  | many (l : List String)
deriving DecidableEq, Repr

/-- `list(np.atleast_1d(callsigns))`: a single string becomes a one-element
list; `None` stays `None`. -/
def CallsignsArg.toSigList : CallsignsArg → Option (List String)
  | .noCalls => none
  | .one s => some [s]
  | .many l => some l

/-- The value returned by the decode call: a single table for a scalar
request, otherwise a mapping from record-type code to table (a Python dict
in insertion order). -/
inductive DecodeResult where
  | single (df : DataFrame)
  | mapping (m : List (ℤ × DataFrame))
deriving DecidableEq, Repr

/-! ## Schema registry -/

/-- The base column table for each record type, from the version 2.6
specification — the `cols` dict literal of `read_iff_file`, as an
association list in the literal's key order. -/
def colsTable : List (ℤ × List String) :=
  [(0, ["recType", "comment"]),
   (1, ["recType", "fileType", "fileFormatVersion"]),
   (2, ["recType", "recTime", "fltKey", "bcnCode", "cid", "Source", "msgType", "AcId", "recTypeCat", "acType", "Orig", "Dest", "opsType", "estOrig", "estDest"]),
   (3, ["recType", "recTime", "fltKey", "bcnCode", "cid", "Source", "msgType", "AcId", "recTypeCat", "coord1", "coord2", "alt", "significance", "coord1Accur", "coord2Accur", "altAccur", "groundSpeed", "course", "rateOfClimb", "altQualifier", "altIndicator", "trackPtStatus", "leaderDir", "scratchPad", "msawInhibitInd", "assignedAltString", "controllingFac", "controllingSeg", "receivingFac", "receivingSec", "activeContr", "primaryContr", "kybrdSubset", "kybrdSymbol", "adsCode", "opsType", "airportCode"]),
   (4, ["recType", "recTime", "fltKey", "bcnCode", "cid", "Source", "msgType", "AcId", "recTypeCat", "acType", "Orig", "Dest", "altcode", "alt", "maxAlt", "assignedAltString", "requestedAltString", "route", "estTime", "fltCat", "perfCat", "opsType", "equipList", "coordinationTime", "coordinationTimeType", "leaderDir", "scratchPad1", "scratchPad2", "fixPairScratchPad", "prefDepArrRoute", "prefDepRoute", "prefArrRoute"]),
   (5, ["recType", "dataSource", "programName", "programVersion"]),
   (6, ["recType", "recTime", "Source", "msgType", "rectypeCat", "sectorizationString"]),
   (7, ["recType", "recTime", "fltKey", "bcnCode", "cid", "Source", "msgType", "AcId", "recTypeCat", "coord1", "coord2", "alt", "significance", "coord1Accur", "coord2Accur", "altAccur", "msawtype", "msawTimeCat", "msawLocCat", "msawMinSafeAlt", "msawIndex1", "msawIndex2", "msawVolID"]),
   (8, ["recType", "recTime", "fltKey", "bcnCode", "cid", "Source", "msgType", "AcId", "recTypeCat", "acType", "Orig", "Dest", "depTime", "depTimeType", "arrTime", "arrTimeType"]),
   (9, ["recType", "recTime", "fltKey", "bcnCode", "cid", "Source", "msgType", "AcId", "recTypeCat", "coord1", "coord2", "alt", "pitchAngle", "trueHeading", "rollAngle", "trueAirSpeed", "fltPhaseIndicator"]),
   (10, ["recType", "recTime", "fltKey", "bcnCode", "cid", "Source", "msgType", "AcId", "recTypeCat", "configType", "configSpec"])]

/-- Lookup in the base column table (`cols[record_type]`). -/
def cols (rt : ℤ) : Option (List String) :=
  (colsTable.find? (fun p => p.1 == rt)).map Prod.snd

/-- The columns appended to record types 2, 3 and 4 when the file version
is at least 2.13, and to record type 3 when it is at least 2.15 — the two
`if version >= parse_version(...)` blocks of `read_iff_file`. -/
def colsAt (v : List ℕ) (rt : ℤ) : Option (List String) :=
  match cols rt with
  | none => none
  | some base =>
    let c13 :=
      if versionLe [2, 13] v then
        if rt = 2 then base ++ ["modeSCode"]
        else if rt = 3 then base ++ ["trackNumber", "tptReturnType", "modeSCode"]
        else if rt = 4 then base ++ ["coordinationPoint", "coordinationPointType", "trackNumber", "modeSCode"]
        else base
      else base
    let c15 :=
      if versionLe [2, 15] v then
        if rt = 3 then c13 ++ ["sensorTrackNumberList", "spi", "dvs", "dupM3a", "tid"]
        else c13
      else c13
    some c15

/-- The column renames applied for consistency with other PARA-ATM data
(`df.rename(columns=..., inplace=True)`). -/
def renameMap (s : String) : String :=
  if s = "recTime" then "time"
  else if s = "AcId" then "callsign"
  else if s = "coord1" then "latitude"
  else if s = "coord2" then "longitude"
  else if s = "alt" then "altitude"
  else if s = "rateOfClimb" then "rocd"
  else if s = "groundSpeed" then "tas"
  else if s = "course" then "heading"
  else s

/-! ## Version detection and record classification -/

/-- Fallible map over a list in the `Except` monad, first failure wins. -/
def mapMExcept (f : α → Except DecodeError β) : List α → Except DecodeError (List β)
  | [] => .ok []
  | a :: as =>
    match f a, mapMExcept f as with
    | .error e, _ => .error e
    | .ok _, .error e => .error e
    | .ok b, .ok bs => .ok (b :: bs)

/-- Concatenation of a list of lists (`itertools`-style flattening, used
for `pd.concat` over the chunk sequence). -/
def joinAll : List (List α) → List α
  | [] => []
  | l :: ls => l ++ joinAll ls

/-- `parse_version(f.readline().split(',')[2])`: read the first physical
line (the empty string if the file is empty, as `readline` returns there),
split it on commas and parse the third field as a version.  A missing third
field is Python's `IndexError`; the version parse itself never fails
(`parse_version` falls back to a legacy version for any string). -/
def detectVersion (lines : List String) : Except DecodeError (List ℕ) :=
  let fields := splitCh ',' (lines.headD "")
  if fields.length < 3 then .error (.formatError "version line has fewer than three fields")
  else .ok (parseVersion (fields.getD 2 ""))

/-- `[int(line.split(',')[0]) for line in f]`: the record-type code of every
line, in file order.  A leading token `int(...)` cannot parse raises
`ValueError`. -/
def classifyLines (lines : List String) : Except DecodeError (List ℤ) :=
  mapMExcept
    (fun line =>
      match parsePyInt ((splitCh ',' line).headD "") with
      | some k => .ok k
      | none => .error (.formatError "record type token is not an integer"))
    lines

/-! ## Sorted distinct record types (`np.unique`) -/

/-- Insert into a `≤`-sorted list keeping it sorted. -/
def insertSorted (x : ℤ) : List ℤ → List ℤ
  | [] => [x]
  | y :: ys => if x ≤ y then x :: y :: ys else y :: insertSorted x ys

/-- Insertion sort on record-type codes. -/
def sortInts (l : List ℤ) : List ℤ :=
  l.foldr insertSorted []

/-- Collapse adjacent duplicates (on a sorted list this removes all
duplicates). -/
def dedupAdj : List ℤ → List ℤ
  | [] => []
  | [x] => [x]
  | x :: y :: rest => if x = y then dedupAdj (y :: rest) else x :: dedupAdj (y :: rest)

/-- `np.unique`: the distinct values in ascending order. -/
def sortedDedup (l : List ℤ) : List ℤ :=
  dedupAdj (sortInts l)

/-- Which record types to retrieve and whether the result is a scalar —
the `record_types == 'all' / hasattr(..., '__getitem__')` dispatch. -/
def resolveRequest (rta : RecordTypesArg) (lineTypes : List ℤ) : List ℤ × Bool :=
  match rta with
  | .all => (sortedDedup lineTypes, false)
  | .listArg rts => (rts, false)
  | .scalar rt => ([rt], true)

/-! ## Per-line parsing and column typing (`pd.read_csv`) -/

/-- The strings `pd.read_csv` reads as missing: its default NA tokens plus
the `na_values='?'` sentinel passed by `read_iff_file`. -/
def naTokens : List String :=
  ["?", "", "#N/A", "#N/A N/A", "#NA", "-1.#IND", "-1.#QNAN", "-NaN", "-nan",
   "1.#IND", "1.#QNAN", "<NA>", "N/A", "NA", "NULL", "NaN", "None", "n/a", "nan", "null"]

/-- One raw field: `none` when the token is a missing-value sentinel. -/
def parseCellRaw (field : String) : Option String :=
  if naTokens.contains field then none else some field

/-- One data line against a schema, as `pd.read_csv(names=schema,
usecols=schema)` reads it: take the leading `schema.length` comma-separated
fields (extra trailing fields are ignored), read NA sentinels as missing,
and fill missing trailing fields with missing values when the line is
short. -/
def parseRawFields (schema : List String) (fields : List String) : List (Option String) :=
  let taken := (fields.take schema.length).map parseCellRaw
  taken ++ List.replicate (schema.length - taken.length) none

/-- `parseRawFields` after comma-splitting the physical line. -/
def parseRawLine (schema : List String) (line : String) : List (Option String) :=
  parseRawFields schema (splitCh ',' line)

/-- Column type inference of `pd.read_csv`: a column is numeric when every
non-missing entry parses as a decimal number (an all-missing column is a
float column). -/
def colIsNumeric (rows : List (List (Option String))) (j : ℕ) : Bool :=
  rows.all
    (fun r =>
      match r.getD j none with
      | none => true
      | some s => (parseDecimal s).isSome)

/-- One cell under the column's inferred type: numeric columns hold parsed
numbers, object columns hold the raw strings, missing is `NaN` either way. -/
def typeCell (numeric : Bool) (c : Option String) : Cell :=
  match c with
  | none => .na
  | some s =>
    if numeric then
      match parseDecimal s with
      | some d => .num d
      | none => .str s
    else .str s

/-- Type the cells of one row, column index running from `j`. -/
def typeRowFrom (rows : List (List (Option String))) : ℕ → List (Option String) → List Cell
  | _, [] => []
  | j, c :: cs => typeCell (colIsNumeric rows j) c :: typeRowFrom rows (j + 1) cs

/-- Type every row of one chunk (`read_csv` infers column types per chunk). -/
def typeRows (rows : List (List (Option String))) : List (List Cell) :=
  rows.map (typeRowFrom rows 0)

/-! ## Chunking -/

/-- Greedy split into batches of `n` rows; structural recursion on a fuel
argument so the definition reduces in the kernel. -/
def chunkListAux (n : ℕ) : ℕ → List α → List (List α)
  | _, [] => []
  | 0, l => [l]
  | fuel + 1, l => if n = 0 then [l] else l.take n :: chunkListAux n fuel (l.drop n)

/-- The chunk sequence produced by `pd.read_csv(..., chunksize=n)`. -/
def chunkList (n : ℕ) (l : List α) : List (List α) :=
  chunkListAux n l.length l

/-! ## Entity filtering and field normalization -/

/-- First index of a column label in a header (`df['name']` column lookup). -/
def colIdx (name : String) : List String → Option ℕ
  | [] => none
  | s :: rest => if s = name then some 0 else (colIdx name rest).map (· + 1)

/-- String membership in the callsign list. -/
def strIn (s : String) : List String → Bool
  | [] => false
  | x :: xs => if x = s then true else strIn s xs

/-- `chunk['AcId'].isin(callsigns)` on one cell: only a string cell can be
a member of the callsign list (a missing value never is, and a numeric
value never equals a string). -/
def cellIsIn (c : Cell) (sigs : List String) : Bool :=
  match c with
  | .str s => strIn s sigs
  | _ => false

/-- `pd.to_datetime(value, unit='s')` on one cell: missing stays missing
(`NaT`), a numeric value becomes the timestamp at that many epoch seconds,
a numeric string is coerced, any other string raises `ValueError`. -/
def cellToDatetime : Cell → Except DecodeError Cell
  | .na => .ok .na
  | .num d => .ok (.ts d)
  | .str s =>
    match parseDecimal s with
    | some d => .ok (.ts d)
    | none => .error (.valueError "non convertible value with the unit s")
  | .ts d => .ok (.ts d)

/-- `df['altitude'] *= 100` on one cell: missing stays missing, a number is
multiplied by 100; a string in an object column is repeated 100 times
(Python's `str * int`), a timestamp cannot occur in an altitude column. -/
def cellMul100 : Cell → Cell
  | .na => .na
  | .num d => .num d.mul100
  | .str s => .str (String.mk (joinAll (List.replicate 100 s.data)))
  | .ts d => .ts d

/-- Convert the `time` cell (at column index `it`) of one row. -/
def convertTimeRow (it : ℕ) (r : List Cell) : Except DecodeError (List Cell) :=
  match cellToDatetime (r.getD it .na) with
  | .error e => .error e
  | .ok c => .ok (r.set it c)

/-- The `if 'time' in df:` conversion step: when a `time` column is
present, convert every one of its cells from epoch seconds to a timestamp. -/
def timeStep (header : List String) (rows : List (List Cell)) :
    Except DecodeError (List (List Cell)) :=
  match colIdx "time" header with
  | none => .ok rows
  | some it => mapMExcept (convertTimeRow it) rows

/-- The `if 'altitude' in df:` conversion step: when an `altitude` column
is present, multiply every one of its cells by 100. -/
def altStep (header : List String) (rows1 : List (List Cell)) : List (List Cell) :=
  match colIdx "altitude" header with
  | none => rows1
  | some ia => rows1.map (fun r => r.set ia (cellMul100 (r.getD ia .na)))

/-- The per-table normalization of `read_iff_file`: the header is already
renamed; if a `time` column is present every value is converted from epoch
seconds to a timestamp, and if an `altitude` column is present every value
is multiplied by 100. -/
def normalizeFrame (header : List String) (rows : List (List Cell)) :
    Except DecodeError DataFrame :=
  match timeStep header rows with
  | .error e => .error e
  | .ok rows1 => .ok ⟨header, altStep header rows1⟩

/-! ## Extraction of one record type -/

/-- The lines classified as record type `rt`, in file order (the complement
of the `skiprows` list built by `read_iff_file`). -/
def selectRows (lines : List String) (lineTypes : List ℤ) (rt : ℤ) : List String :=
  ((lines.zip lineTypes).filter (fun p => p.2 == rt)).map Prod.fst

/-- The rows of the file that belong to record type `rt`, split into
comma-separated fields against the schema (what `pd.read_csv` with the
`skiprows` complement reads). -/
def extractRaws (lines : List String) (lineTypes : List ℤ) (rt : ℤ)
    (schema : List String) : List (List (Option String)) :=
  (selectRows lines lineTypes rt).map (parseRawLine schema)

/-- Decode one record type: resolve its schema, re-read the matching lines
in chunks, per chunk infer column types and (when `callsigns` was given)
keep only the rows whose `AcId` cell is a member, concatenate, rename the
columns and normalize.  Failures model, in evaluation order: `KeyError`
on `cols[record_type]`, `ValueError` on a non-positive chunksize,
`ValueError` from `pd.concat` when no chunk exists, `KeyError` on
`chunk['AcId']` when the schema has no such column. -/
def frameFor (lines : List String) (lineTypes : List ℤ) (v : List ℕ)
    (cs : CallsignsArg) (n : ℕ) (rt : ℤ) : Except DecodeError DataFrame :=
  match colsAt v rt with
  | none => .error (.unknownRecordType rt)
  | some schema =>
    if n = 0 then .error (.valueError "chunksize must be a positive integer")
    else if extractRaws lines lineTypes rt schema = [] then
      .error (.valueError "No objects to concatenate")
    else
      match cs.toSigList with
      | none =>
        normalizeFrame (schema.map renameMap)
          (joinAll ((chunkList n (extractRaws lines lineTypes rt schema)).map typeRows))
      | some sigs =>
        match colIdx "AcId" schema with
        | none => .error (.keyError "AcId")
        | some iAc =>
          normalizeFrame (schema.map renameMap)
            (joinAll ((chunkList n (extractRaws lines lineTypes rt schema)).map
              (fun ch => (typeRows ch).filter (fun r => cellIsIn (r.getD iAc .na) sigs))))

/-! ## Result assembly -/

/-- Python dict insertion: overwrite in place when the key exists, append
otherwise. -/
def dictInsert (k : ℤ) (v : DataFrame) (d : List (ℤ × DataFrame)) :
    List (ℤ × DataFrame) :=
  if d.any (fun p => p.1 == k) then d.map (fun p => if p.1 == k then (k, v) else p)
  else d ++ [(k, v)]

/-- Python dict lookup. -/
def dictLookup (k : ℤ) (d : List (ℤ × DataFrame)) : Option DataFrame :=
  (d.find? (fun p => p.1 == k)).map Prod.snd

/-- The `for record_type in record_types:` loop, accumulating
`data_frames[record_type] = df`. -/
def buildFrames (lines : List String) (lineTypes : List ℤ) (v : List ℕ)
    (cs : CallsignsArg) (n : ℕ) :
    List ℤ → List (ℤ × DataFrame) → Except DecodeError (List (ℤ × DataFrame))
  | [], d => .ok d
  | rt :: rest, d =>
    match frameFor lines lineTypes v cs n rt with
    | .error e => .error e
    | .ok df => buildFrames lines lineTypes v cs n rest (dictInsert rt df d)

/-- The whole decode call `read_iff_file` on the file's lines: detect the
version, classify every line, resolve the requested record types, build a
table per requested type, and return either the single table
(`data_frames[record_types[0]]`) or the mapping. -/
def decode (lines : List String) (rta : RecordTypesArg) (cs : CallsignsArg)
    (n : ℕ) : Except DecodeError DecodeResult :=
  match detectVersion lines with
  | .error e => .error e
  | .ok v =>
    match classifyLines lines with
    | .error e => .error e
    | .ok lineTypes =>
      let rr := resolveRequest rta lineTypes
      match buildFrames lines lineTypes v cs n rr.1 [] with
      | .error e => .error e
      | .ok dfs =>
        match rr.2 with
        | false => .ok (.mapping dfs)
        | true =>
          match rr.1 with
          | [] => .error (.keyError "record_types")
          | rt :: _ =>
            match dictLookup rt dfs with
            | some df => .ok (.single df)
            | none => .error (.keyError "record_types")

/-! ## File-system wrapper

`read_iff_file` only ever opens its input for reading.  The wrapper
threads an explicit file-system state so that absence of mutation is a
statement, not an assumption: the returned state is the input state. -/

/-- A file system: file names mapped to their list of lines. -/
structure FileSystem where
  files : List (String × List String)
deriving DecidableEq, Repr

/-- Look a file up by name. -/
def readFile (fs : FileSystem) (filename : String) : Option (List String) :=
  (fs.files.find? (fun p => p.1 == filename)).map Prod.snd

/-- `read_iff_file(filename, record_types, callsigns, chunksize)`: resolve
the file in the file-system state and decode it; the state is returned
unchanged alongside the result. -/
def read_iff_file (fs : FileSystem) (filename : String) (rta : RecordTypesArg)
    (cs : CallsignsArg) (n : ℕ) :
    FileSystem × Except DecodeError DecodeResult :=
  match readFile fs filename with
  | none => (fs, .error (.ioError filename))
  | some lines => (fs, decode lines rta cs n)

/-- Insert a key at the end unless present (key behaviour of Python dict
insertion). -/
def insertKey (ks : List ℤ) (k : ℤ) : List ℤ :=
  if k ∈ ks then ks else ks ++ [k]

/-- The key sequence of a Python dict built by inserting the given keys in
order: first occurrence order. -/
def firstDedup (l : List ℤ) : List ℤ :=
  l.foldl insertKey []

/-- The field names that the version-gated rules can append. -/
def gatedNames : List String :=
  ["modeSCode", "trackNumber", "tptReturnType", "coordinationPoint",
   "coordinationPointType", "sensorTrackNumberList", "spi", "dvs", "dupM3a", "tid"]

/-- The fields the two version-gated rules append to a record type at a
given version, in rule order. -/
def gatedExtra (v : List ℕ) (rt : ℤ) : List String :=
  (if versionLe [2, 13] v then
    if rt = 2 then ["modeSCode"]
    else if rt = 3 then ["trackNumber", "tptReturnType", "modeSCode"]
    else if rt = 4 then ["coordinationPoint", "coordinationPointType", "trackNumber", "modeSCode"]
    else []
  else []) ++
  (if versionLe [2, 15] v then
    if rt = 3 then ["sensorTrackNumberList", "spi", "dvs", "dupM3a", "tid"] else []
  else [])

/-- Sample file used to witness C10: one line each of record types 1, 0,
5 and 6. -/
def c10file : List String :=
  ["1,EV,2.6", "0,hello", "5,src,prog,1.0", "6,200,S,M,cat,sect"]

/-! ## Concrete sample data for the witnesses -/

/-- A small IFF file: a type-1 header line and three type-2 flight-summary
lines for two callsigns. -/
def sampleLines : List String :=
  ["1,EV,2", "2,100,1,111,C1,S,M,AAA", "2,100,1,111,C1,S,M,BBB", "2,100,1,111,C1,S,M,AAA"]

/-- The renamed record-type-2 header. -/
def sampleHeader : List String :=
  ["recType", "time", "fltKey", "bcnCode", "cid", "Source", "msgType", "callsign",
   "recTypeCat", "acType", "Orig", "Dest", "opsType", "estOrig", "estDest"]

/-- A decoded record-type-2 row of `sampleLines` (short line, so the last
seven fields are missing). -/
def sampleRow (sig : String) : List Cell :=
  [.num ⟨2, 0⟩, .ts ⟨100, 0⟩, .num ⟨1, 0⟩, .num ⟨111, 0⟩, .str "C1", .str "S", .str "M",
   .str sig, .na, .na, .na, .na, .na, .na, .na]

/-- Record type 2 of `sampleLines`, unfiltered. -/
def sampleDF : DataFrame :=
  ⟨sampleHeader, [sampleRow "AAA", sampleRow "BBB", sampleRow "AAA"]⟩

/-- Record type 2 of `sampleLines`, filtered to callsign `AAA`. -/
def sampleDF_A : DataFrame :=
  ⟨sampleHeader, [sampleRow "AAA", sampleRow "AAA"]⟩

/-- Record type 2 of `sampleLines`, filtered to callsign `BBB`. -/
def sampleDF_B : DataFrame :=
  ⟨sampleHeader, [sampleRow "BBB"]⟩

/-- The mapping decoded from `sampleLines` with the `'all'` request. -/
def sampleAllMapping : List (ℤ × DataFrame) :=
  [(1, ⟨["recType", "fileType", "fileFormatVersion"],
        [[.num ⟨1, 0⟩, .str "EV", .num ⟨2, 0⟩]]⟩),
   (2, sampleDF)]

/-- Altitude-normalization output table used to witness C3. -/
def c3out : DataFrame :=
  ⟨["altitude"], [[.num ⟨8000, 0⟩], [.na]]⟩

/-- A one-file file system used to witness C9. -/
def c9fs : FileSystem :=
  ⟨[("a.iff", c10file)]⟩

/-! ## Lemmas: the release ordering is component-wise numeric comparison -/

/-- A list with no trailing zero component. -/
def NoTZ (l : List ℕ) : Prop :=
  l.getLast? ≠ some 0

theorem noTZ_nil : NoTZ [] := by
  simp [NoTZ]

theorem noTZ_tail {x : ℕ} {xs : List ℕ} (h : NoTZ (x :: xs)) : NoTZ xs := by
  cases xs with
  | nil => exact noTZ_nil
  | cons y ys => simpa [NoTZ, List.getLast?_cons_cons] using h

theorem head_dropWhile_ne (l : List ℕ) : (l.dropWhile (· = 0)).head? ≠ some 0 := by
  induction l with
  | nil => simp
  | cons x xs ih =>
    by_cases hx : x = 0
    · simpa [List.dropWhile, hx] using ih
    · simp [List.dropWhile, hx]

theorem noTZ_dropTrailingZeros (l : List ℕ) : NoTZ (dropTrailingZeros l) := by
  unfold NoTZ dropTrailingZeros
  rw [List.getLast?_reverse]
  exact head_dropWhile_ne l.reverse

theorem dropTrailingZeros_spec (l : List ℕ) :
    ∃ k, l = dropTrailingZeros l ++ List.replicate k 0 := by
  have ht : ∃ k, (l.reverse.takeWhile (· = 0)).reverse = List.replicate k 0 := by
    refine ⟨(l.reverse.takeWhile (· = 0)).length, ?_⟩
    have hrep : l.reverse.takeWhile (· = 0)
        = List.replicate (l.reverse.takeWhile (· = 0)).length 0 := by
      rw [List.eq_replicate_iff]
      exact ⟨rfl, fun b hb => by simpa using List.mem_takeWhile_imp hb⟩
    conv_lhs => rw [hrep]
    rw [List.reverse_replicate]
  rcases ht with ⟨k, hk⟩
  refine ⟨k, ?_⟩
  conv_rhs => rw [← hk]
  show l = (l.reverse.dropWhile (· = 0)).reverse ++ (l.reverse.takeWhile (· = 0)).reverse
  rw [← List.reverse_append, List.takeWhile_append_dropWhile, List.reverse_reverse]

theorem spec_nil_le (b : List ℕ) : specVersionLe [] b = true := by
  induction b with
  | nil => simp [specVersionLe]
  | cons y ys ih =>
    unfold specVersionLe
    by_cases hy : 0 < y
    · simp [hy]
    · simp [hy, ih]

theorem spec_le_nil (a : List ℕ) : specVersionLe a [] = a.all (· = 0) := by
  induction a with
  | nil => simp [specVersionLe]
  | cons x xs ih =>
    unfold specVersionLe
    by_cases hx : 0 < x
    · have hne : ¬ x = 0 := Nat.pos_iff_ne_zero.mp hx
      simp [hx, hne]
    · have hz : x = 0 := Nat.eq_zero_of_not_pos hx
      simp [hx, hz, ih]

theorem spec_append_zero_right (a b : List ℕ) :
    specVersionLe a (b ++ [0]) = specVersionLe a b := by
  induction a generalizing b with
  | nil => rw [spec_nil_le, spec_nil_le]
  | cons x xs ih =>
    cases b with
    | nil =>
      show specVersionLe (x :: xs) [0] = specVersionLe (x :: xs) []
      unfold specVersionLe
      by_cases hx : 0 < x
      · have hne : ¬ x < 0 := Nat.not_lt_zero x
        have hne2 : ¬ x = 0 := Nat.pos_iff_ne_zero.mp hx
        simp [hx, hne, hne2]
      · have hz : x = 0 := Nat.eq_zero_of_not_pos hx
        simp [hx, hz]
    | cons y ys =>
      show specVersionLe (x :: xs) (y :: (ys ++ [0])) = specVersionLe (x :: xs) (y :: ys)
      unfold specVersionLe
      by_cases h1 : x < y
      · simp [h1]
      · by_cases h2 : x = y
        · simp [h1, h2, ih]
        · simp [h1, h2]

theorem spec_zero_single_le (b : List ℕ) : specVersionLe [0] b = true := by
  cases b with
  | nil => simp [specVersionLe]
  | cons y ys =>
    unfold specVersionLe
    by_cases hy : 0 < y
    · simp [hy]
    · have hz : 0 = y := (Nat.eq_zero_of_not_pos hy).symm
      simp [hy, hz, spec_nil_le]

theorem spec_append_zero_left (a b : List ℕ) :
    specVersionLe (a ++ [0]) b = specVersionLe a b := by
  induction a generalizing b with
  | nil =>
    rw [List.nil_append, spec_nil_le, spec_zero_single_le]
  | cons x xs ih =>
    cases b with
    | nil =>
      show specVersionLe (x :: (xs ++ [0])) [] = specVersionLe (x :: xs) []
      unfold specVersionLe
      by_cases hx : 0 < x
      · simp [hx]
      · simp [hx, ih]
    | cons y ys =>
      show specVersionLe (x :: (xs ++ [0])) (y :: ys) = specVersionLe (x :: xs) (y :: ys)
      unfold specVersionLe
      by_cases h1 : x < y
      · simp [h1]
      · by_cases h2 : x = y
        · simp [h1, h2, ih]
        · simp [h1, h2]

theorem spec_append_zeros_right (a b : List ℕ) (k : ℕ) :
    specVersionLe a (b ++ List.replicate k 0) = specVersionLe a b := by
  induction k generalizing b with
  | zero => simp
  | succ k ih =>
    rw [List.replicate_succ']
    rw [← List.append_assoc, spec_append_zero_right, ih]

theorem spec_append_zeros_left (a b : List ℕ) (k : ℕ) :
    specVersionLe (a ++ List.replicate k 0) b = specVersionLe a b := by
  induction k generalizing a with
  | zero => simp
  | succ k ih =>
    rw [List.replicate_succ']
    rw [← List.append_assoc, spec_append_zero_left, ih]

theorem lex_eq_spec_of_noTZ :
    ∀ (a b : List ℕ), NoTZ a → NoTZ b → listLexLe a b = specVersionLe a b := by
  intro a
  induction a with
  | nil =>
    intro b _ _
    rw [spec_nil_le]
    rfl
  | cons x xs ih =>
    intro b ha hb
    cases b with
    | nil =>
      rw [spec_le_nil]
      show false = (x :: xs).all (· = 0)
      by_cases hall : (x :: xs).all (· = 0) = true
      · exfalso
        have hmem := List.getLast_mem (l := x :: xs) (by simp)
        have hz : (x :: xs).getLast (by simp) = 0 := by
          have := List.all_eq_true.mp hall _ hmem
          simpa using this
        have : (x :: xs).getLast? = some 0 := by
          rw [List.getLast?_eq_getLast (x :: xs) (by simp), hz]
        exact ha this
      · exact ((Bool.not_eq_true _).mp hall).symm
    | cons y ys =>
      show listLexLe (x :: xs) (y :: ys) = specVersionLe (x :: xs) (y :: ys)
      unfold listLexLe specVersionLe
      by_cases h1 : x < y
      · simp [h1]
      · by_cases h2 : x = y
        · simp [h1, h2, ih ys (noTZ_tail ha) (noTZ_tail hb)]
        · simp [h1, h2]

/-- The program's version ordering agrees with component-wise numeric
comparison with zero-extension of the shorter version. -/
theorem versionLe_eq_specVersionLe (a b : List ℕ) :
    versionLe a b = specVersionLe a b := by
  unfold versionLe
  rw [lex_eq_spec_of_noTZ _ _ (noTZ_dropTrailingZeros a) (noTZ_dropTrailingZeros b)]
  rcases dropTrailingZeros_spec a with ⟨ka, hka⟩
  rcases dropTrailingZeros_spec b with ⟨kb, hkb⟩
  conv_rhs => rw [hka, hkb]
  rw [spec_append_zeros_left, spec_append_zeros_right]

/-! ## Generic helper lemmas -/

theorem mapMExcept_ok_forall2 {α β : Type} (f : α → Except DecodeError β) :
    ∀ (l : List α) (l2 : List β), mapMExcept f l = .ok l2 →
      List.Forall₂ (fun a b => f a = .ok b) l l2 := by
  intro l
  induction l with
  | nil =>
    intro l2 h
    simp only [mapMExcept] at h
    cases h
    exact List.Forall₂.nil
  | cons a as ih =>
    intro l2 h
    simp only [mapMExcept] at h
    cases hfa : f a with
    | error e => rw [hfa] at h; cases h
    | ok b =>
      rw [hfa] at h
      cases hrest : mapMExcept f as with
      | error e => rw [hrest] at h; cases h
      | ok bs =>
        rw [hrest] at h
        cases h
        exact List.Forall₂.cons hfa (ih bs hrest)

theorem mapMExcept_filter {α β : Type} (f : α → Except DecodeError β)
    (p : α → Bool) (q : β → Bool)
    (hpq : ∀ a b, f a = .ok b → p a = q b) :
    ∀ {l : List α} {l2 : List β}, List.Forall₂ (fun a b => f a = .ok b) l l2 →
      mapMExcept f (l.filter p) = .ok (l2.filter q) := by
  intro l l2 h
  induction h with
  | nil => simp [mapMExcept]
  | @cons a b as bs hab _ ih =>
    have hq : q b = p a := (hpq a b hab).symm
    by_cases hpa : p a
    · simp [List.filter_cons, hpa, hq, mapMExcept, hab, ih]
    · simp [List.filter_cons, hpa, hq, ih]

theorem map_filter_comm {α β : Type} (g : α → β) (p : α → Bool) (q : β → Bool)
    (hpq : ∀ a, p a = q (g a)) :
    ∀ l : List α, (l.filter p).map g = (l.map g).filter q := by
  intro l
  induction l with
  | nil => rfl
  | cons a as ih =>
    by_cases hpa : p a
    · simp [List.filter_cons, hpa, ← hpq a, ih]
    · simp [List.filter_cons, hpa, ← hpq a, ih]

theorem set_getD_self {α : Type} (d : α) (f : α → α) (hf : f d = d) :
    ∀ (l : List α) (i : ℕ), (l.set i (f (l.getD i d))).getD i d = f (l.getD i d) := by
  intro l
  induction l with
  | nil => intro i; simp [hf]
  | cons a as ih =>
    intro i
    cases i with
    | zero => simp
    | succ j => simpa using ih j

theorem set_getD_ne {α : Type} (d : α) :
    ∀ (l : List α) (i j : ℕ) (c : α), i ≠ j → (l.set i c).getD j d = l.getD j d := by
  intro l
  induction l with
  | nil => intro i j c _; simp
  | cons a as ih =>
    intro i j c hij
    cases i with
    | zero =>
      cases j with
      | zero => exact absurd rfl hij
      | succ j2 => simp
    | succ i2 =>
      cases j with
      | zero => simp
      | succ j2 =>
        have : i2 ≠ j2 := fun h => hij (by rw [h])
        simpa using ih i2 j2 c this

theorem joinAll_map_filter {β : Type} (p : β → Bool) :
    ∀ ls : List (List β), joinAll (ls.map (fun l => l.filter p)) = (joinAll ls).filter p := by
  intro ls
  induction ls with
  | nil => rfl
  | cons l rest ih =>
    simp only [List.map_cons, joinAll, ih, List.filter_append]

theorem colIdx_lt_length (name : String) :
    ∀ (l : List String) (i : ℕ), colIdx name l = some i → i < l.length := by
  intro l
  induction l with
  | nil => intro i h; cases h
  | cons s rest ih =>
    intro i h
    simp only [colIdx] at h
    by_cases hs : s = name
    · rw [if_pos hs] at h
      cases h
      simp
    · rw [if_neg hs] at h
      cases hrec : colIdx name rest with
      | none => rw [hrec] at h; cases h
      | some i2 =>
        rw [hrec] at h
        cases h
        have := ih i2 hrec
        simpa using Nat.succ_lt_succ this

theorem colIdx_getD (name : String) (d : String) :
    ∀ (l : List String) (i : ℕ), colIdx name l = some i → l.getD i d = name := by
  intro l
  induction l with
  | nil => intro i h; cases h
  | cons s rest ih =>
    intro i h
    simp only [colIdx] at h
    by_cases hs : s = name
    · rw [if_pos hs] at h
      cases h
      simpa using hs
    · rw [if_neg hs] at h
      cases hrec : colIdx name rest with
      | none => rw [hrec] at h; cases h
      | some i2 =>
        rw [hrec] at h
        cases h
        simpa using ih i2 hrec

theorem colIdx_isSome_iff_mem (name : String) :
    ∀ l : List String, (colIdx name l).isSome ↔ name ∈ l := by
  intro l
  induction l with
  | nil => simp [colIdx]
  | cons s rest ih =>
    simp only [colIdx]
    by_cases hs : s = name
    · simp [hs]
    · rw [if_neg hs]
      rw [List.mem_cons]
      have hne : ¬ name = s := fun h => hs h.symm
      simp [hne, ← ih]

/-! ## Dictionary and key-order lemmas -/

theorem dictInsert_keys (k : ℤ) (v : DataFrame) (d : List (ℤ × DataFrame)) :
    (dictInsert k v d).map Prod.fst =
      if k ∈ d.map Prod.fst then d.map Prod.fst else d.map Prod.fst ++ [k] := by
  unfold dictInsert
  by_cases hmem : k ∈ d.map Prod.fst
  · rcases List.mem_map.mp hmem with ⟨p, hp, hpk⟩
    have hany : d.any (fun p => p.1 == k) = true := by
      rw [List.any_eq_true]
      exact ⟨p, hp, by simp [hpk]⟩
    rw [if_pos hany, if_pos hmem, List.map_map]
    apply List.map_congr_left
    intro q _
    by_cases hq : q.1 = k
    · simp [hq]
    · simp [hq]
  · have hany : ¬ d.any (fun p => p.1 == k) = true := by
      rw [List.any_eq_true]
      rintro ⟨p, hp, hpk⟩
      exact hmem (List.mem_map.mpr ⟨p, hp, by simpa using hpk⟩)
    rw [if_neg hany, if_neg hmem, List.map_append]
    rfl

theorem mem_insertKey (ks : List ℤ) (k x : ℤ) :
    x ∈ insertKey ks k ↔ x ∈ ks ∨ x = k := by
  unfold insertKey
  by_cases h : k ∈ ks
  · rw [if_pos h]
    constructor
    · exact Or.inl
    · rintro (hx | hx)
      · exact hx
      · rw [hx]; exact h
  · rw [if_neg h]
    simp

theorem mem_foldl_insertKey :
    ∀ (l : List ℤ) (ks : List ℤ) (x : ℤ), x ∈ l.foldl insertKey ks ↔ x ∈ ks ∨ x ∈ l := by
  intro l
  induction l with
  | nil => simp
  | cons a as ih =>
    intro ks x
    rw [List.foldl_cons, ih, mem_insertKey]
    rw [List.mem_cons]
    tauto

theorem foldl_insertKey_nodup :
    ∀ (l : List ℤ) (ks : List ℤ), l.Nodup → (∀ x ∈ l, x ∉ ks) →
      l.foldl insertKey ks = ks ++ l := by
  intro l
  induction l with
  | nil => intro ks _ _; simp
  | cons a as ih =>
    intro ks hnd hdisj
    rw [List.foldl_cons]
    have ha : a ∉ ks := hdisj a (by simp)
    have hstep : insertKey ks a = ks ++ [a] := by rw [insertKey, if_neg ha]
    have hdisj2 : ∀ x ∈ as, x ∉ ks ++ [a] := by
      intro x hx
      rw [List.mem_append]
      rintro (hks | hxa)
      · exact hdisj x (List.mem_cons.mpr (Or.inr hx)) hks
      · have hxa2 : x = a := by simpa using hxa
        rw [List.nodup_cons] at hnd
        exact hnd.1 (hxa2 ▸ hx)
    rw [hstep]
    have hih := ih (ks ++ [a]) (List.Nodup.of_cons hnd) hdisj2
    rw [hih, List.append_assoc]
    rfl

theorem firstDedup_eq_self_of_nodup (l : List ℤ) (h : l.Nodup) : firstDedup l = l := by
  unfold firstDedup
  rw [foldl_insertKey_nodup l [] h (by simp)]
  rfl

theorem mem_firstDedup (l : List ℤ) (x : ℤ) : x ∈ firstDedup l ↔ x ∈ l := by
  unfold firstDedup
  rw [mem_foldl_insertKey]
  simp

/-! ## Insertion-sort (`np.unique`) lemmas -/

theorem mem_insertSorted (x : ℤ) :
    ∀ (l : List ℤ) (y : ℤ), y ∈ insertSorted x l ↔ y = x ∨ y ∈ l := by
  intro l
  induction l with
  | nil => simp [insertSorted]
  | cons a as ih =>
    intro y
    simp only [insertSorted]
    by_cases h : x ≤ a
    · rw [if_pos h]
      simp
    · rw [if_neg h]
      rw [List.mem_cons, ih y, List.mem_cons]
      tauto

theorem pairwise_insertSorted (x : ℤ) :
    ∀ l : List ℤ, l.Pairwise (· ≤ ·) → (insertSorted x l).Pairwise (· ≤ ·) := by
  intro l
  induction l with
  | nil => intro _; simp [insertSorted]
  | cons a as ih =>
    intro hp
    rw [List.pairwise_cons] at hp
    simp only [insertSorted]
    by_cases h : x ≤ a
    · rw [if_pos h]
      rw [List.pairwise_cons]
      constructor
      · intro b hb
        rcases List.mem_cons.mp hb with hb | hb
        · rw [hb]; exact h
        · exact le_trans h (hp.1 b hb)
      · rw [List.pairwise_cons]
        exact hp
    · rw [if_neg h]
      rw [List.pairwise_cons]
      constructor
      · intro b hb
        rcases (mem_insertSorted x as b).mp hb with hb | hb
        · rw [hb]; exact le_of_not_le h
        · exact hp.1 b hb
      · exact ih hp.2

theorem sortInts_facts (l : List ℤ) :
    (sortInts l).Pairwise (· ≤ ·) ∧ ∀ x, x ∈ sortInts l ↔ x ∈ l := by
  induction l with
  | nil => simp [sortInts]
  | cons a as ih =>
    have hstep : sortInts (a :: as) = insertSorted a (sortInts as) := rfl
    constructor
    · rw [hstep]
      exact pairwise_insertSorted a (sortInts as) ih.1
    · intro x
      rw [hstep, mem_insertSorted, ih.2 x, List.mem_cons]

theorem dedupAdj_facts :
    ∀ l : List ℤ, l.Pairwise (· ≤ ·) →
      (dedupAdj l).Pairwise (· < ·) ∧ ∀ x, x ∈ dedupAdj l ↔ x ∈ l := by
  intro l
  induction l with
  | nil => intro _; simp [dedupAdj]
  | cons a tail ih =>
    intro hp
    cases tail with
    | nil => simp [dedupAdj]
    | cons y rest =>
      rw [List.pairwise_cons] at hp
      have ihres := ih hp.2
      by_cases hay : a = y
      · have hstep : dedupAdj (a :: y :: rest) = dedupAdj (y :: rest) := by
          simp [dedupAdj, hay]
        rw [hstep]
        refine ⟨ihres.1, ?_⟩
        intro x
        rw [ihres.2 x]
        subst hay
        simp [List.mem_cons]
      · have hstep : dedupAdj (a :: y :: rest) = a :: dedupAdj (y :: rest) := by
          simp [dedupAdj, hay]
        rw [hstep]
        constructor
        · rw [List.pairwise_cons]
          refine ⟨?_, ihres.1⟩
          intro b hb
          have hbmem : b ∈ y :: rest := (ihres.2 b).mp hb
          have hab : a ≤ b := hp.1 b hbmem
          have hay2 : a ≤ y := hp.1 y (by simp)
          rcases List.mem_cons.mp hbmem with hb2 | hb2
          · rw [hb2]
            exact lt_of_le_of_ne hay2 hay
          · have hyb : y ≤ b := (List.pairwise_cons.mp hp.2).1 b hb2
            exact lt_of_lt_of_le (lt_of_le_of_ne hay2 hay) hyb
        · intro x
          simp only [List.mem_cons, ihres.2 x]

theorem sortedDedup_facts (l : List ℤ) :
    (sortedDedup l).Pairwise (· < ·) ∧ ∀ x, x ∈ sortedDedup l ↔ x ∈ l := by
  have h1 := sortInts_facts l
  have h2 := dedupAdj_facts (sortInts l) h1.1
  refine ⟨h2.1, ?_⟩
  intro x
  rw [show sortedDedup l = dedupAdj (sortInts l) from rfl, h2.2 x, h1.2 x]

theorem sortedDedup_nodup (l : List ℤ) : (sortedDedup l).Nodup :=
  (sortedDedup_facts l).1.imp ne_of_lt

/-! ## Schema registry lemmas -/

theorem cols_mem_table (rt : ℤ) (base : List String) (h : cols rt = some base) :
    base ∈ colsTable.map Prod.snd := by
  unfold cols at h
  cases hf : colsTable.find? (fun p => p.1 == rt) with
  | none => rw [hf] at h; cases h
  | some pr =>
    rw [hf] at h
    cases h
    exact List.mem_map.mpr ⟨pr, List.mem_of_find?_eq_some hf, rfl⟩

theorem cols_no_callsign (rt : ℤ) (base : List String) (h : cols rt = some base) :
    "callsign" ∉ base := by
  have hm := cols_mem_table rt base h
  simp only [colsTable, List.map_cons, List.map_nil, List.mem_cons,
    List.not_mem_nil, or_false] at hm
  rcases hm with h1 | h1 | h1 | h1 | h1 | h1 | h1 | h1 | h1 | h1 | h1 <;> subst h1 <;> decide

theorem colsAt_eq_base_gated (v : List ℕ) (rt : ℤ) (base : List String)
    (h : cols rt = some base) : colsAt v rt = some (base ++ gatedExtra v rt) := by
  unfold colsAt gatedExtra
  rw [h]
  by_cases h13 : versionLe [2, 13] v = true <;> by_cases h15 : versionLe [2, 15] v = true <;>
    by_cases e2 : rt = 2 <;> by_cases e3 : rt = 3 <;> by_cases e4 : rt = 4 <;>
      simp_all

theorem gatedExtra_sub (v : List ℕ) (rt : ℤ) :
    ∀ x ∈ gatedExtra v rt, x ∈ gatedNames := by
  unfold gatedExtra
  by_cases h13 : versionLe [2, 13] v = true <;> by_cases h15 : versionLe [2, 15] v = true <;>
    by_cases e2 : rt = 2 <;> by_cases e3 : rt = 3 <;> by_cases e4 : rt = 4 <;>
      simp_all <;> decide

theorem cols_no_gated (rt : ℤ) (base : List String) (h : cols rt = some base) :
    ∀ x ∈ gatedNames, x ∉ base := by
  have hm := cols_mem_table rt base h
  simp only [colsTable, List.map_cons, List.map_nil, List.mem_cons,
    List.not_mem_nil, or_false] at hm
  rcases hm with h1 | h1 | h1 | h1 | h1 | h1 | h1 | h1 | h1 | h1 | h1 <;> subst h1 <;> decide

theorem colsAt_no_callsign (v : List ℕ) (rt : ℤ) (sch : List String)
    (h : colsAt v rt = some sch) : "callsign" ∉ sch := by
  cases hc : cols rt with
  | none => unfold colsAt at h; rw [hc] at h; cases h
  | some base =>
    rw [colsAt_eq_base_gated v rt base hc] at h
    cases h
    rw [List.mem_append]
    rintro (hb | he)
    · exact cols_no_callsign rt base hc hb
    · have := gatedExtra_sub v rt _ he
      revert this
      decide

/-- Record types other than 2, 3 and 4 are unaffected by the version-gated
appends. -/
theorem colsAt_eq_cols_of_ne (v : List ℕ) (rt : ℤ)
    (h2 : rt ≠ 2) (h3 : rt ≠ 3) (h4 : rt ≠ 4) : colsAt v rt = cols rt := by
  unfold colsAt
  cases cols rt with
  | none => rfl
  | some base => simp [h2, h3, h4]

/-- Renaming maps `AcId` to `callsign` and, on a header that does not
already contain `callsign`, nothing else maps there. -/
theorem renameMap_eq_callsign (x : String) (hx : x ≠ "callsign") :
    (renameMap x = "callsign") ↔ x = "AcId" := by
  unfold renameMap
  split_ifs with h1 h2 h3 h4 h5 h6 h7 h8 <;> simp_all

theorem colIdx_rename_callsign :
    ∀ s : List String, "callsign" ∉ s →
      colIdx "callsign" (s.map renameMap) = colIdx "AcId" s := by
  intro s
  induction s with
  | nil => intro _; rfl
  | cons x xs ih =>
    intro hmem
    have hx : x ≠ "callsign" := fun h => hmem (by rw [h]; exact List.mem_cons_self _ _)
    have hxs : "callsign" ∉ xs := fun h => hmem (List.mem_cons.mpr (Or.inr h))
    simp only [List.map_cons, colIdx]
    by_cases hAc : x = "AcId"
    · rw [if_pos ((renameMap_eq_callsign x hx).mpr hAc), if_pos hAc]
    · rw [if_neg (fun h => hAc ((renameMap_eq_callsign x hx).mp h)), if_neg hAc, ih hxs]

/-! ## Result-assembly lemmas -/

theorem buildFrames_keys (lines : List String) (lts : List ℤ) (v : List ℕ)
    (cs : CallsignsArg) (n : ℕ) :
    ∀ (rts : List ℤ) (d d2 : List (ℤ × DataFrame)),
      buildFrames lines lts v cs n rts d = .ok d2 →
      d2.map Prod.fst = rts.foldl insertKey (d.map Prod.fst) := by
  intro rts
  induction rts with
  | nil =>
    intro d d2 h
    simp only [buildFrames] at h
    cases h
    simp
  | cons rt rest ih =>
    intro d d2 h
    simp only [buildFrames] at h
    cases hf : frameFor lines lts v cs n rt with
    | error e => rw [hf] at h; cases h
    | ok df =>
      rw [hf] at h
      have hkeys := ih (dictInsert rt df d) d2 h
      rw [hkeys, List.foldl_cons]
      congr 1
      rw [dictInsert_keys]
      rfl

/-! ## Normalization lemmas -/

theorem normalizeFrame_header (header : List String) (rows : List (List Cell))
    (out : DataFrame) (h : normalizeFrame header rows = .ok out) :
    out.header = header := by
  unfold normalizeFrame at h
  cases ht : timeStep header rows with
  | error e => rw [ht] at h; cases h
  | ok rows1 => rw [ht] at h; cases h; rfl

theorem convertTimeRow_preserves (it i : ℕ) (hne : it ≠ i) (r r2 : List Cell)
    (h : convertTimeRow it r = .ok r2) : r2.getD i .na = r.getD i .na := by
  unfold convertTimeRow at h
  cases hc : cellToDatetime (r.getD it .na) with
  | error e => rw [hc] at h; cases h
  | ok c =>
    rw [hc] at h
    cases h
    exact set_getD_ne Cell.na r it i c hne

theorem timeStep_filter (header : List String) (rows rows1 : List (List Cell))
    (i : ℕ) (p : Cell → Bool)
    (hitime : header.getD i "" ≠ "time")
    (h1 : timeStep header rows = .ok rows1) :
    timeStep header (rows.filter (fun r => p (r.getD i .na)))
      = .ok (rows1.filter (fun r => p (r.getD i .na))) := by
  unfold timeStep at h1 ⊢
  cases hit : colIdx "time" header with
  | none =>
    rw [hit] at h1
    cases h1
    rfl
  | some it =>
    rw [hit] at h1
    have hitne : it ≠ i := by
      intro heq
      exact hitime (heq ▸ colIdx_getD "time" "" header it hit)
    exact mapMExcept_filter (convertTimeRow it) _ _
      (fun a b hab => by rw [convertTimeRow_preserves it i hitne a b hab])
      (mapMExcept_ok_forall2 (convertTimeRow it) rows rows1 h1)

theorem altStep_filter (header : List String) (rows1 : List (List Cell))
    (i : ℕ) (p : Cell → Bool)
    (hialt : header.getD i "" ≠ "altitude") :
    altStep header (rows1.filter (fun r => p (r.getD i .na)))
      = (altStep header rows1).filter (fun r => p (r.getD i .na)) := by
  unfold altStep
  cases hia : colIdx "altitude" header with
  | none => rfl
  | some ia =>
    have hiane : ia ≠ i := by
      intro heq
      exact hialt (heq ▸ colIdx_getD "altitude" "" header ia hia)
    exact map_filter_comm _ _ _
      (fun r => by rw [set_getD_ne Cell.na r ia i _ hiane]) rows1

theorem normalizeFrame_filter (header : List String) (rows : List (List Cell))
    (out out2 : DataFrame) (i : ℕ) (p : Cell → Bool)
    (hitime : header.getD i "" ≠ "time")
    (hialt : header.getD i "" ≠ "altitude")
    (h1 : normalizeFrame header rows = .ok out)
    (h2 : normalizeFrame header (rows.filter (fun r => p (r.getD i .na))) = .ok out2) :
    out2.rows = out.rows.filter (fun r => p (r.getD i .na)) := by
  unfold normalizeFrame at h1 h2
  cases ht : timeStep header rows with
  | error e => rw [ht] at h1; cases h1
  | ok rows1 =>
    rw [ht] at h1
    cases h1
    rw [timeStep_filter header rows rows1 i p hitime ht] at h2
    cases h2
    exact altStep_filter header rows1 i p hialt

/-! ## Extraction-level filter characterization -/

theorem frameFor_filter (lines : List String) (lts : List ℤ) (v : List ℕ)
    (n : ℕ) (csArg : CallsignsArg) (sigs : List String)
    (hcs : csArg.toSigList = some sigs) (rt : ℤ) (df df2 : DataFrame) (i : ℕ)
    (h0 : frameFor lines lts v .noCalls n rt = .ok df)
    (h1 : frameFor lines lts v csArg n rt = .ok df2)
    (hi : colIdx "callsign" df.header = some i) :
    df2.rows = df.rows.filter (fun r => cellIsIn (r.getD i .na) sigs)
      ∧ df2.header = df.header := by
  unfold frameFor at h0 h1
  cases hsch : colsAt v rt with
  | none => simp only [hsch] at h0; cases h0
  | some schema =>
    simp only [hsch] at h0 h1
    by_cases hn : n = 0
    · simp only [if_pos hn] at h0; cases h0
    simp only [if_neg hn] at h0 h1
    by_cases hemp : extractRaws lines lts rt schema = []
    · simp only [if_pos hemp] at h0; cases h0
    simp only [if_neg hemp] at h0 h1
    simp only [hcs] at h1
    simp only [CallsignsArg.toSigList] at h0
    cases hAc : colIdx "AcId" schema with
    | none => simp only [hAc] at h1; cases h1
    | some iAc =>
      simp only [hAc] at h1
      have hhead : df.header = schema.map renameMap := normalizeFrame_header _ _ _ h0
      have hnc : "callsign" ∉ schema := colsAt_no_callsign v rt schema hsch
      have htrans : colIdx "callsign" (schema.map renameMap) = colIdx "AcId" schema :=
        colIdx_rename_callsign schema hnc
      rw [hhead, htrans, hAc] at hi
      cases hi
      have hjoin : joinAll ((chunkList n (extractRaws lines lts rt schema)).map
            (fun ch => (typeRows ch).filter (fun r => cellIsIn (r.getD i .na) sigs)))
          = (joinAll ((chunkList n (extractRaws lines lts rt schema)).map typeRows)).filter
              (fun r => cellIsIn (r.getD i .na) sigs) := by
        rw [show ((chunkList n (extractRaws lines lts rt schema)).map
              (fun ch => (typeRows ch).filter (fun r => cellIsIn (r.getD i .na) sigs)))
            = (((chunkList n (extractRaws lines lts rt schema)).map typeRows).map
              (fun l => l.filter (fun r => cellIsIn (r.getD i .na) sigs))) from by
          rw [List.map_map]; rfl]
        exact joinAll_map_filter _ _
      rw [hjoin] at h1
      have hgetd : (schema.map renameMap).getD i "" = "callsign" := by
        apply colIdx_getD
        rw [htrans, hAc]
      have hitime : (schema.map renameMap).getD i "" ≠ "time" := by
        rw [hgetd]; decide
      have hialt : (schema.map renameMap).getD i "" ≠ "altitude" := by
        rw [hgetd]; decide
      refine ⟨?_, ?_⟩
      · exact normalizeFrame_filter (schema.map renameMap) _ df df2 i
          (fun c => cellIsIn c sigs) hitime hialt h0 h1
      · rw [normalizeFrame_header _ _ _ h1, hhead]

/-! ## Decode-level plumbing -/

theorem decode_scalar_unwrap (lines : List String) (rt : ℤ) (cs : CallsignsArg)
    (n : ℕ) (df : DataFrame)
    (h : decode lines (.scalar rt) cs n = .ok (.single df)) :
    ∃ v lts, detectVersion lines = .ok v ∧ classifyLines lines = .ok lts ∧
      frameFor lines lts v cs n rt = .ok df := by
  unfold decode at h
  cases hv : detectVersion lines with
  | error e => simp only [hv] at h; cases h
  | ok v =>
    simp only [hv] at h
    cases hc : classifyLines lines with
    | error e => simp only [hc] at h; cases h
    | ok lts =>
      simp only [hc] at h
      simp only [resolveRequest] at h
      cases hf : frameFor lines lts v cs n rt with
      | error e => simp [buildFrames, hf] at h
      | ok df2 =>
        simp only [buildFrames, hf] at h
        simp only [dictInsert, dictLookup, List.any_nil, Bool.false_eq_true, if_neg,
          List.nil_append, List.find?, beq_self_eq_true, Option.map_some] at h
        cases h
        exact ⟨v, lts, rfl, rfl, hf⟩

/-! ## Counting lemmas for callsign filtering -/

theorem strIn_append (s : String) :
    ∀ A B : List String, strIn s (A ++ B) = (strIn s A || strIn s B) := by
  intro A B
  induction A with
  | nil => simp [strIn]
  | cons x xs ih =>
    simp only [List.cons_append, strIn]
    by_cases hx : x = s
    · simp [hx]
    · simp [hx, ih]

theorem strIn_iff_mem (s : String) : ∀ l : List String, strIn s l = true ↔ s ∈ l := by
  intro l
  induction l with
  | nil => simp [strIn]
  | cons x xs ih =>
    simp only [strIn, List.mem_cons]
    by_cases hx : x = s
    · simp [hx]
    · rw [if_neg hx, ih]
      have : ¬ s = x := fun h => hx h.symm
      simp [this]

theorem cellIsIn_append (c : Cell) (A B : List String) :
    cellIsIn c (A ++ B) = (cellIsIn c A || cellIsIn c B) := by
  cases c with
  | str s => exact strIn_append s A B
  | na => rfl
  | num d => rfl
  | ts d => rfl

theorem length_filter_or_disjoint {α : Type} (p q : α → Bool) :
    ∀ l : List α, (∀ x ∈ l, ¬(p x = true ∧ q x = true)) →
      (l.filter (fun x => p x || q x)).length
        = (l.filter p).length + (l.filter q).length := by
  intro l
  induction l with
  | nil => intro _; rfl
  | cons a as ih =>
    intro hd
    have htail := ih (fun x hx => hd x (List.mem_cons.mpr (Or.inr hx)))
    have hhead := hd a (by simp)
    by_cases hp : p a
    · have hq : ¬ q a = true := fun hq => hhead ⟨hp, hq⟩
      simp [List.filter_cons, hp, hq]
      omega
    · by_cases hq : q a
      · simp [List.filter_cons, hp, hq]
        omega
      · simp [List.filter_cons, hp, hq]
        omega

theorem cell_str_injective : Function.Injective Cell.str := by
  intro a b h
  cases h
  rfl

/-- The distinct values of the filtered callsign column are exactly the
images of the callsign-list entries that occur in the unfiltered column. -/
theorem distinct_filtered_count (rows : List (List Cell)) (i : ℕ) (sigs : List String) :
    ((rows.filter (fun r => cellIsIn (r.getD i .na) sigs)).map
        (fun r => r.getD i .na)).toFinset.card
      = (sigs.toFinset.filter
          (fun s => Cell.str s ∈ (rows.map (fun r => r.getD i .na)).toFinset)).card := by
  have hset : ((rows.filter (fun r => cellIsIn (r.getD i .na) sigs)).map
        (fun r => r.getD i .na)).toFinset
      = Finset.image Cell.str
          (sigs.toFinset.filter
            (fun s => Cell.str s ∈ (rows.map (fun r => r.getD i .na)).toFinset)) := by
    apply Finset.ext
    intro c
    rw [List.mem_toFinset, List.mem_map, Finset.mem_image]
    constructor
    · rintro ⟨r, hr, hrc⟩
      rw [List.mem_filter] at hr
      have hcell : cellIsIn c sigs = true := hrc ▸ hr.2
      cases c with
      | str s =>
        refine ⟨s, ?_, rfl⟩
        rw [Finset.mem_filter, List.mem_toFinset]
        constructor
        · exact (strIn_iff_mem s sigs).mp hcell
        · rw [List.mem_toFinset, List.mem_map]
          exact ⟨r, hr.1, hrc⟩
      | na => cases hcell
      | num d => cases hcell
      | ts d => cases hcell
    · rintro ⟨s, hs, hsc⟩
      rw [Finset.mem_filter, List.mem_toFinset] at hs
      rcases hs with ⟨hmem, hcol⟩
      rw [List.mem_toFinset, List.mem_map] at hcol
      rcases hcol with ⟨r, hr, hrc⟩
      refine ⟨r, ?_, hsc ▸ hrc⟩
      rw [List.mem_filter]
      refine ⟨hr, ?_⟩
      rw [hrc]
      exact (strIn_iff_mem s sigs).mpr hmem
  rw [hset]
  exact Finset.card_image_of_injective _ cell_str_injective

/-! ## Per-line parsing lemmas -/

theorem getD_map_take {α β : Type} (f : α → β) (d : α) (db : β) :
    ∀ (l : List α) (n j : ℕ), j < n → j < l.length →
      ((l.take n).map f).getD j db = f (l.getD j d) := by
  intro l
  induction l with
  | nil => intro n j _ h; cases h
  | cons a as ih =>
    intro n j hn hl
    cases n with
    | zero => cases hn
    | succ n2 =>
      cases j with
      | zero => simp
      | succ j2 =>
        have h1 : j2 < n2 := Nat.lt_of_succ_lt_succ hn
        have h2 : j2 < as.length := Nat.lt_of_succ_lt_succ hl
        simpa using ih n2 j2 h1 h2

theorem getD_replicate {α : Type} (a d : α) :
    ∀ (k i : ℕ), i < k → (List.replicate k a).getD i d = a := by
  intro k
  induction k with
  | zero => intro i h; cases h
  | succ k2 ih =>
    intro i h
    cases i with
    | zero => simp
    | succ i2 =>
      rw [List.replicate_succ]
      simpa using ih i2 (Nat.lt_of_succ_lt_succ h)

/-- What `pd.read_csv` yields for field `j` of a line: the parsed field when
the line has one at that position, a missing value (short-line padding)
otherwise. -/
theorem parseRawFields_getD (schema fields : List String) (j : ℕ)
    (hj : j < schema.length) :
    (parseRawFields schema fields).getD j (some "") =
      if j < fields.length then parseCellRaw (fields.getD j "") else none := by
  unfold parseRawFields
  by_cases hf : j < fields.length
  · rw [if_pos hf]
    have hjt : j < ((fields.take schema.length).map parseCellRaw).length := by
      rw [List.length_map, List.length_take]
      omega
    rw [List.getD_append _ _ _ _ hjt]
    exact getD_map_take parseCellRaw "" (some "") fields schema.length j hj hf
  · rw [if_neg hf]
    have hlen : ((fields.take schema.length).map parseCellRaw).length
        = min schema.length fields.length := by
      rw [List.length_map, List.length_take]
    have hge : ((fields.take schema.length).map parseCellRaw).length ≤ j := by
      rw [hlen]; omega
    rw [List.getD_append_right _ _ _ _ hge]
    apply getD_replicate
    rw [hlen]
    omega

theorem parseRawFields_length (schema fields : List String) :
    (parseRawFields schema fields).length = schema.length := by
  unfold parseRawFields
  simp only [List.length_append, List.length_map, List.length_take, List.length_replicate]
  omega

/-! ## Classification lemmas -/

theorem classifyLines_length (lines : List String) (lts : List ℤ)
    (h : classifyLines lines = .ok lts) : lines.length = lts.length :=
  (mapMExcept_ok_forall2 _ lines lts h).length_eq

theorem selectRows_ne_nil (rt : ℤ) :
    ∀ (lines : List String) (lts : List ℤ), lines.length = lts.length →
      rt ∈ lts → selectRows lines lts rt ≠ [] := by
  intro lines
  induction lines with
  | nil =>
    intro lts hlen hmem
    cases lts with
    | nil => cases hmem
    | cons t ts => cases hlen
  | cons x xs ih =>
    intro lts hlen hmem
    cases lts with
    | nil => cases hmem
    | cons t ts =>
      unfold selectRows
      rw [List.zip_cons_cons, List.filter_cons]
      by_cases hx : t = rt
      · rw [if_pos (by simpa using hx)]
        simp
      · rw [if_neg (by simpa using hx)]
        have hmem2 : rt ∈ ts := by
          rcases List.mem_cons.mp hmem with h | h
          · exact absurd h.symm hx
          · exact h
        exact ih ts (by simpa using hlen) hmem2

/-! ## Claims -/

/-- Claim C6: version comparison against the schema thresholds is semantic
(numeric, field-by-field on the dotted components), not lexicographic on
the raw string: the ordering `versionLe` used by the gating in `colsAt`
agrees with component-wise numeric comparison (`specVersionLe`, missing
components read as zero) on every pair of versions, and in particular
"2.9" is ordered strictly before "2.13" even though the raw strings
compare the other way around lexicographically. -/
theorem c6_semantic_version_ordering :
    (∀ a b : List ℕ, versionLe a b = specVersionLe a b)
    ∧ parseVersion "2.9" = [2, 9]
    ∧ parseVersion "2.13" = [2, 13]
    ∧ versionLe [2, 9] [2, 13] = true
    ∧ versionLe [2, 13] [2, 9] = false
    ∧ strLexLt "2.13".data "2.9".data = true := by
  exact ⟨versionLe_eq_specVersionLe, by decide, by decide, by decide, by decide, by decide⟩

/-- Claim C2: for every detected version `v`, the resolved schema for record
types 2, 3 and 4 contains `modeSCode` exactly when `v ≥ 2.13`; the schema
for record type 3 contains the five fields introduced at 2.15 exactly when
`v ≥ 2.15`; and the version-gated fields are appended after the base
fields, never reordering or removing existing ones. -/
theorem c2_version_gated_schema (v : List ℕ) (rt : ℤ)
    (hrt : rt = 2 ∨ rt = 3 ∨ rt = 4) :
    (∀ base, cols rt = some base → colsAt v rt = some (base ++ gatedExtra v rt))
    ∧ ("modeSCode" ∈ (colsAt v rt).getD [] ↔ versionLe [2, 13] v = true)
    ∧ (rt = 3 →
        ∀ f ∈ ["sensorTrackNumberList", "spi", "dvs", "dupM3a", "tid"],
          (f ∈ (colsAt v rt).getD [] ↔ versionLe [2, 15] v = true)) := by
  refine ⟨fun base hb => colsAt_eq_base_gated v rt base hb, ?_, ?_⟩
  · have hex : ∃ base, cols rt = some base := by
      rcases hrt with h | h | h <;> subst h <;> exact ⟨_, rfl⟩
    rcases hex with ⟨base, hc⟩
    rw [colsAt_eq_base_gated v rt base hc, Option.getD_some, List.mem_append]
    have hnb : "modeSCode" ∉ base := cols_no_gated rt base hc "modeSCode" (by decide)
    simp only [hnb, false_or]
    unfold gatedExtra
    rcases hrt with h | h | h <;> subst h <;>
      (by_cases h13 : versionLe [2, 13] v = true <;>
        by_cases h15 : versionLe [2, 15] v = true <;>
          simp [h13, h15])
  · intro h3 f hf
    subst h3
    cases hc : cols (3 : ℤ) with
    | none => exact absurd hc (by decide)
    | some base =>
      rw [colsAt_eq_base_gated v 3 base hc, Option.getD_some, List.mem_append]
      have hfg : f ∈ gatedNames := by
        simp only [List.mem_cons, List.not_mem_nil, or_false] at hf
        rcases hf with rfl | rfl | rfl | rfl | rfl <;> decide
      have hnb : f ∉ base := cols_no_gated 3 base hc f hfg
      simp only [hnb, false_or]
      unfold gatedExtra
      simp only [List.mem_cons, List.not_mem_nil, or_false] at hf
      by_cases h13 : versionLe [2, 13] v = true <;>
        by_cases h15 : versionLe [2, 15] v = true <;>
          (rcases hf with rfl | rfl | rfl | rfl | rfl <;> simp [h13, h15])

/-- Claim C3: for every table whose (renamed) header contains an `altitude`
column, normalization replaces each altitude cell by `cellMul100` of the
cell it held before normalization — so every non-missing numeric value is
multiplied by 100 and every missing value stays missing. -/
theorem c3_altitude_scaling (header : List String) (rows : List (List Cell))
    (out : DataFrame) (ia : ℕ)
    (hia : colIdx "altitude" header = some ia)
    (hok : normalizeFrame header rows = .ok out) :
    List.Forall₂ (fun r r2 => r2.getD ia .na = cellMul100 (r.getD ia .na)) rows out.rows
    ∧ cellMul100 .na = .na
    ∧ (∀ d : Dec, cellMul100 (.num d) = .num d.mul100)
    ∧ (∀ d : Dec, d.mul100.toRat = 100 * d.toRat) := by
  refine ⟨?_, rfl, fun d => rfl, ?_⟩
  · unfold normalizeFrame at hok
    cases ht : timeStep header rows with
    | error e => rw [ht] at hok; cases hok
    | ok rows1 =>
      rw [ht] at hok
      cases hok
      have hrel1 : List.Forall₂ (fun r r1 => (r1 : List Cell).getD ia .na = r.getD ia .na)
          rows rows1 := by
        unfold timeStep at ht
        cases hit : colIdx "time" header with
        | none =>
          rw [hit] at ht
          cases ht
          rw [List.forall₂_same]
          intro r _
          rfl
        | some it =>
          rw [hit] at ht
          have hitne : it ≠ ia := by
            intro heq
            have h1 := colIdx_getD "time" "" header it hit
            have h2 := colIdx_getD "altitude" "" header ia hia
            rw [heq] at h1
            rw [h2] at h1
            exact absurd h1 (by decide)
          exact (mapMExcept_ok_forall2 _ rows rows1 ht).imp
            (fun a b hab => convertTimeRow_preserves it ia hitne a b hab)
      show List.Forall₂ _ rows (altStep header rows1)
      unfold altStep
      rw [hia]
      rw [List.forall₂_map_right_iff]
      apply hrel1.imp
      intro r r1 h
      rw [set_getD_self Cell.na cellMul100 rfl r1 ia, h]
  · intro d
    unfold Dec.mul100 Dec.toRat
    push_cast
    ring

/-- Claim C5: a field whose raw value is the sentinel `?` is decoded as a missing
value rather than a parse failure: line parsing is total and yields `none`
at that position, column typing turns it into the missing cell, and the
epoch-seconds-to-timestamp conversion maps a missing cell to a missing
cell without error. -/
theorem c5_question_mark_missing (schema : List String) (line : String) (j : ℕ)
    (hj : j < schema.length)
    (hq : (splitCh ',' line).getD j "" = "?") :
    (parseRawLine schema line).getD j (some "") = none
    ∧ (∀ numeric : Bool, typeCell numeric none = .na)
    ∧ cellToDatetime .na = .ok .na := by
  refine ⟨?_, fun numeric => rfl, rfl⟩
  have hlt : j < (splitCh ',' line).length := by
    by_contra hge
    rw [List.getD_eq_default _ _ (Nat.le_of_not_lt hge)] at hq
    exact absurd hq (by decide)
  unfold parseRawLine
  rw [parseRawFields_getD schema _ j hj, if_pos hlt, hq]
  decide

/-- Counterexample to claim C7: a record-type-0 line `"0"` has fewer fields (one)
than its two-field schema requires, yet the decode call succeeds — the
missing trailing field is filled with a missing value instead of raising a
`SchemaMismatchError`. -/
theorem c7_counterexample :
    decode ["1,EV,2.6", "0,hello", "0"] (.scalar 0) .noCalls 50000
      = .ok (.single ⟨["recType", "comment"],
          [[.num ⟨0, 0⟩, .str "hello"], [.num ⟨0, 0⟩, .na]]⟩)
    ∧ ∀ e : DecodeError,
        decode ["1,EV,2.6", "0,hello", "0"] (.scalar 0) .noCalls 50000 ≠ .error e := by
  have hd : decode ["1,EV,2.6", "0,hello", "0"] (.scalar 0) .noCalls 50000
      = .ok (.single ⟨["recType", "comment"],
          [[.num ⟨0, 0⟩, .str "hello"], [.num ⟨0, 0⟩, .na]]⟩) := by decide
  refine ⟨hd, ?_⟩
  intro e h
  rw [hd] at h
  cases h

/-- Amended claim C7: line parsing takes exactly as many leading
comma-separated fields as the schema declares, ignoring any additional
trailing fields; when a line has fewer fields than the schema requires the
missing trailing positions are filled with missing values (pandas pads
short rows with `NaN`) and no error is raised. -/
theorem c7_leading_fields (schema fields : List String) :
    (parseRawFields schema fields).length = schema.length
    ∧ (∀ j, j < schema.length → j < fields.length →
        (parseRawFields schema fields).getD j (some "") = parseCellRaw (fields.getD j ""))
    ∧ (∀ j, j < schema.length → fields.length ≤ j →
        (parseRawFields schema fields).getD j (some "") = none)
    ∧ (∀ fields2 : List String, fields.take schema.length = fields2.take schema.length →
        parseRawFields schema fields = parseRawFields schema fields2) := by
  refine ⟨parseRawFields_length schema fields, ?_, ?_, ?_⟩
  · intro j hj hf
    rw [parseRawFields_getD schema fields j hj, if_pos hf]
  · intro j hj hf
    rw [parseRawFields_getD schema fields j hj, if_neg (Nat.not_lt.mpr hf)]
  · intro fields2 htake
    unfold parseRawFields
    rw [htake]

/-- Counterexample to claim C8: the third field `"2.6rc1"` of the version
line is not a well-formed dotted numeric string, yet the decode call
succeeds — `parse_version` accepts it (and falls back to a legacy version
for arbitrary strings) instead of aborting with a format error. -/
theorem c8_counterexample :
    decode ["1,EV,2.6rc1", "0,hello"] (.scalar 0) .noCalls 50000
      = .ok (.single ⟨["recType", "comment"], [[.num ⟨0, 0⟩, .str "hello"]]⟩)
    ∧ (∀ e : DecodeError,
        decode ["1,EV,2.6rc1", "0,hello"] (.scalar 0) .noCalls 50000 ≠ .error e)
    ∧ (splitCh '.' "2.6rc1").all (fun comp => (parseNatDigits comp).isSome) = false := by
  have hd : decode ["1,EV,2.6rc1", "0,hello"] (.scalar 0) .noCalls 50000
      = .ok (.single ⟨["recType", "comment"], [[.num ⟨0, 0⟩, .str "hello"]]⟩) := by decide
  refine ⟨hd, ?_, by decide⟩
  intro e h
  rw [hd] at h
  cases h

/-- Amended claim C8: version detection reads exactly the first physical
line (its result does not depend on the remaining lines), splits it on
comma and parses the third field with `parse_version`; the decode call
fails with the format error exactly when the first line has fewer than
three comma-separated fields, while a third field that is not a
well-formed dotted numeric string never aborts the call: `parse_version`
accepts PEP 440 forms such as `"2.6rc1"` or `"v2.6"` and falls back to a
legacy version — below every release in the ordering — for any other
string. -/
theorem c8_version_detection :
    (∀ (l : String) (r1 r2 : List String),
        detectVersion (l :: r1) = detectVersion (l :: r2))
    ∧ (∀ (l : String) (rest : List String) (rta : RecordTypesArg)
          (cs : CallsignsArg) (n : ℕ),
        (splitCh ',' l).length < 3 →
        ∃ msg, decode (l :: rest) rta cs n = .error (.formatError msg))
    ∧ (∀ (l : String) (rest : List String),
        3 ≤ (splitCh ',' l).length →
        detectVersion (l :: rest) = .ok (parseVersion ((splitCh ',' l).getD 2 "")))
    ∧ parseVersion "2.6rc1" = [2, 6]
    ∧ parseVersion "v2.6" = [2, 6]
    ∧ parseVersion "abc" = []
    ∧ versionLe [2, 13] [] = false := by
  refine ⟨fun l r1 r2 => rfl, ?_, ?_, by decide, by decide, by decide, by decide⟩
  · intro l rest rta cs n hlen
    refine ⟨"version line has fewer than three fields", ?_⟩
    have hdv : detectVersion (l :: rest)
        = .error (.formatError "version line has fewer than three fields") := by
      unfold detectVersion
      rw [if_pos (by simpa using hlen)]
    unfold decode
    rw [hdv]
  · intro l rest hlen
    unfold detectVersion
    rw [if_neg (by simpa using Nat.not_lt.mpr hlen)]
    rw [show (l :: rest).headD "" = l from rfl]

/-- Claim C9: the decode call is deterministic and side-effect free: it leaves
the file-system state exactly as it found it (it only ever opens the file
for reading), two invocations with identical arguments return identical
results, and the result depends only on the content the file name resolves
to. -/
theorem c9_deterministic_read_only (fs : FileSystem) (filename : String)
    (rta : RecordTypesArg) (cs : CallsignsArg) (n : ℕ) :
    (read_iff_file fs filename rta cs n).1 = fs
    ∧ read_iff_file fs filename rta cs n = read_iff_file fs filename rta cs n
    ∧ (∀ fs2 : FileSystem, readFile fs filename = readFile fs2 filename →
        (read_iff_file fs filename rta cs n).2 = (read_iff_file fs2 filename rta cs n).2) := by
  refine ⟨?_, rfl, ?_⟩
  · unfold read_iff_file
    cases readFile fs filename <;> rfl
  · intro fs2 h
    unfold read_iff_file
    rw [← h]
    cases hr : readFile fs filename <;> rfl

/-- Claim C1: the result shape follows the request shape: a scalar `recordTypes`
yields a single table; an explicit list yields a mapping whose keys are the
requested codes (first-occurrence order, each code once); the sentinel
`'all'` yields a mapping whose key sequence is exactly the distinct record
type codes observed in the file in strictly ascending order. -/
theorem c1_result_shape (lines : List String) (cs : CallsignsArg) (n : ℕ) :
    (∀ (rt : ℤ) (r : DecodeResult),
        decode lines (.scalar rt) cs n = .ok r → ∃ df, r = .single df)
    ∧ (∀ (rts : List ℤ) (r : DecodeResult),
        decode lines (.listArg rts) cs n = .ok r →
        ∃ m, r = .mapping m ∧ m.map Prod.fst = firstDedup rts
          ∧ ∀ k, k ∈ m.map Prod.fst ↔ k ∈ rts)
    ∧ (∀ (lts : List ℤ) (r : DecodeResult),
        classifyLines lines = .ok lts → decode lines .all cs n = .ok r →
        ∃ m, r = .mapping m ∧ m.map Prod.fst = sortedDedup lts
          ∧ (m.map Prod.fst).Pairwise (· < ·)
          ∧ ∀ k, k ∈ m.map Prod.fst ↔ k ∈ lts) := by
  refine ⟨?_, ?_, ?_⟩
  · intro rt r h
    unfold decode at h
    cases hv : detectVersion lines with
    | error e => simp only [hv] at h; cases h
    | ok v =>
      simp only [hv] at h
      cases hc : classifyLines lines with
      | error e => simp only [hc] at h; cases h
      | ok lts =>
        simp only [hc, resolveRequest] at h
        cases hb : buildFrames lines lts v cs n [rt] [] with
        | error e => simp only [hb] at h; cases h
        | ok dfs =>
          simp only [hb] at h
          cases hd : dictLookup rt dfs with
          | none => simp only [hd] at h; cases h
          | some df =>
            simp only [hd] at h
            cases h
            exact ⟨df, rfl⟩
  · intro rts r h
    unfold decode at h
    cases hv : detectVersion lines with
    | error e => simp only [hv] at h; cases h
    | ok v =>
      simp only [hv] at h
      cases hc : classifyLines lines with
      | error e => simp only [hc] at h; cases h
      | ok lts =>
        simp only [hc, resolveRequest] at h
        cases hb : buildFrames lines lts v cs n rts [] with
        | error e => simp only [hb] at h; cases h
        | ok dfs =>
          simp only [hb] at h
          cases h
          refine ⟨dfs, rfl, ?_, ?_⟩
          · exact buildFrames_keys lines lts v cs n rts [] dfs hb
          · intro k
            rw [buildFrames_keys lines lts v cs n rts [] dfs hb]
            exact mem_firstDedup rts k
  · intro lts r hlts h
    unfold decode at h
    cases hv : detectVersion lines with
    | error e => simp only [hv] at h; cases h
    | ok v =>
      simp only [hv] at h
      simp only [hlts, resolveRequest] at h
      cases hb : buildFrames lines lts v cs n (sortedDedup lts) [] with
      | error e => simp only [hb] at h; cases h
      | ok dfs =>
        simp only [hb] at h
        cases h
        have hkeys : dfs.map Prod.fst = sortedDedup lts := by
          rw [buildFrames_keys lines lts v cs n (sortedDedup lts) [] dfs hb]
          exact firstDedup_eq_self_of_nodup (sortedDedup lts) (sortedDedup_nodup lts)
        refine ⟨dfs, rfl, hkeys, ?_, ?_⟩
        · rw [hkeys]
          exact (sortedDedup_facts lts).1
        · intro k
          rw [hkeys]
          exact (sortedDedup_facts lts).2 k

/-- Claim C10: when a callsigns argument is supplied and the requested record
type's schema has no `AcId` column — record types 0, 1, 5 and 6 — the
decode call raises (the `KeyError` on `chunk['AcId']`) instead of
returning rows unfiltered or an empty table; with `callsigns=None` the
same record types decode without error. -/
theorem c10_no_acid_column :
    (∀ (lines : List String) (v : List ℕ) (lts : List ℤ) (rt : ℤ)
        (sl : List String) (cs : CallsignsArg) (n : ℕ),
      detectVersion lines = .ok v → classifyLines lines = .ok lts →
      cs.toSigList = some sl → (rt = 0 ∨ rt = 1 ∨ rt = 5 ∨ rt = 6) →
      rt ∈ lts → n ≠ 0 →
      decode lines (.scalar rt) cs n = .error (.keyError "AcId"))
    ∧ decode c10file (.scalar 0) .noCalls 50000
        = .ok (.single ⟨["recType", "comment"], [[.num ⟨0, 0⟩, .str "hello"]]⟩)
    ∧ decode c10file (.scalar 1) .noCalls 50000
        = .ok (.single ⟨["recType", "fileType", "fileFormatVersion"],
            [[.num ⟨1, 0⟩, .str "EV", .num ⟨26, 1⟩]]⟩)
    ∧ decode c10file (.scalar 5) .noCalls 50000
        = .ok (.single ⟨["recType", "dataSource", "programName", "programVersion"],
            [[.num ⟨5, 0⟩, .str "src", .str "prog", .num ⟨10, 1⟩]]⟩)
    ∧ decode c10file (.scalar 6) .noCalls 50000
        = .ok (.single ⟨["recType", "time", "Source", "msgType", "rectypeCat",
              "sectorizationString"],
            [[.num ⟨6, 0⟩, .ts ⟨200, 0⟩, .str "S", .str "M", .str "cat", .str "sect"]]⟩) := by
  refine ⟨?_, by decide, by decide, by decide, by decide⟩
  intro lines v lts rt sl cs n hv hc hcs hrt hobs hn
  have hlen := classifyLines_length lines lts hc
  have hsel : selectRows lines lts rt ≠ [] := selectRows_ne_nil rt lines lts hlen hobs
  have hff : frameFor lines lts v cs n rt = .error (.keyError "AcId") := by
    have hne2 : rt ≠ 2 := by rcases hrt with h | h | h | h <;> subst h <;> decide
    have hne3 : rt ≠ 3 := by rcases hrt with h | h | h | h <;> subst h <;> decide
    have hne4 : rt ≠ 4 := by rcases hrt with h | h | h | h <;> subst h <;> decide
    have hraws : ∀ sch : List String, extractRaws lines lts rt sch ≠ [] := by
      intro sch hmap
      exact hsel (List.map_eq_nil_iff.mp hmap)
    unfold frameFor
    rw [colsAt_eq_cols_of_ne v rt hne2 hne3 hne4]
    rcases hrt with h | h | h | h <;> subst h
    · simp only [show cols (0 : ℤ) = some ["recType", "comment"] from rfl]
      rw [if_neg hn, if_neg (hraws _)]
      simp only [hcs]
      rfl
    · simp only [show cols (1 : ℤ) = some ["recType", "fileType", "fileFormatVersion"] from rfl]
      rw [if_neg hn, if_neg (hraws _)]
      simp only [hcs]
      rfl
    · simp only [show cols (5 : ℤ)
          = some ["recType", "dataSource", "programName", "programVersion"] from rfl]
      rw [if_neg hn, if_neg (hraws _)]
      simp only [hcs]
      rfl
    · simp only [show cols (6 : ℤ) = some ["recType", "recTime", "Source", "msgType",
          "rectypeCat", "sectorizationString"] from rfl]
      rw [if_neg hn, if_neg (hraws _)]
      simp only [hcs]
      rfl
  unfold decode
  simp only [hv, hc, resolveRequest, buildFrames, hff]

/-- Claim C4: decoding with a callsign set returns exactly the rows whose
aircraft-identifier cell is a member of the set (`df`, decoded with
`callsigns=None`, is the unfiltered baseline, and `df1` the filtered
result); for two distinct single callsigns the row count of the union
filter is the sum of the two individual counts; and the distinct-callsign
count of the filtered table equals the number of set entries actually
present in the unfiltered column. -/
theorem c4_callsign_filtering (lines : List String) (n : ℕ) (rt : ℤ)
    (S : List String) (a b : String) (df df1 dfA dfB dfAB : DataFrame) (i : ℕ)
    (h0 : decode lines (.scalar rt) .noCalls n = .ok (.single df))
    (h1 : decode lines (.scalar rt) (.many S) n = .ok (.single df1))
    (hA : decode lines (.scalar rt) (.one a) n = .ok (.single dfA))
    (hB : decode lines (.scalar rt) (.one b) n = .ok (.single dfB))
    (hAB : decode lines (.scalar rt) (.many [a, b]) n = .ok (.single dfAB))
    (hab : a ≠ b)
    (hi : colIdx "callsign" df.header = some i) :
    df1.rows = df.rows.filter (fun r => cellIsIn (r.getD i .na) S)
    ∧ dfAB.rows.length = dfA.rows.length + dfB.rows.length
    ∧ (df1.rows.map (fun r => r.getD i .na)).toFinset.card
        = (S.toFinset.filter
            (fun s => Cell.str s ∈ (df.rows.map (fun r => r.getD i .na)).toFinset)).card := by
  rcases decode_scalar_unwrap lines rt .noCalls n df h0 with ⟨v, lts, hdv, hcl, hf0⟩
  rcases decode_scalar_unwrap lines rt (.many S) n df1 h1 with ⟨v1, lts1, hdv1, hcl1, hf1⟩
  rcases decode_scalar_unwrap lines rt (.one a) n dfA hA with ⟨v2, lts2, hdv2, hcl2, hfA⟩
  rcases decode_scalar_unwrap lines rt (.one b) n dfB hB with ⟨v3, lts3, hdv3, hcl3, hfB⟩
  rcases decode_scalar_unwrap lines rt (.many [a, b]) n dfAB hAB
    with ⟨v4, lts4, hdv4, hcl4, hfAB⟩
  rw [hdv] at hdv1 hdv2 hdv3 hdv4
  cases hdv1
  cases hdv2
  cases hdv3
  cases hdv4
  rw [hcl] at hcl1 hcl2 hcl3 hcl4
  cases hcl1
  cases hcl2
  cases hcl3
  cases hcl4
  have hS := frameFor_filter lines lts v n (.many S) S rfl rt df df1 i hf0 hf1 hi
  have ha := frameFor_filter lines lts v n (.one a) [a] rfl rt df dfA i hf0 hfA hi
  have hb2 := frameFor_filter lines lts v n (.one b) [b] rfl rt df dfB i hf0 hfB hi
  have hab2 := frameFor_filter lines lts v n (.many [a, b]) [a, b] rfl rt df dfAB i
    hf0 hfAB hi
  refine ⟨hS.1, ?_, ?_⟩
  · rw [hab2.1, ha.1, hb2.1]
    have hor : ∀ r ∈ df.rows,
        cellIsIn (r.getD i .na) [a, b]
          = (cellIsIn (r.getD i .na) [a] || cellIsIn (r.getD i .na) [b]) :=
      fun r _ => cellIsIn_append (r.getD i .na) [a] [b]
    rw [List.filter_congr hor]
    apply length_filter_or_disjoint
    intro r _
    rintro ⟨hpa, hpb⟩
    cases hcell : r.getD i .na with
    | str s2 =>
      rw [hcell] at hpa hpb
      have hma : s2 ∈ [a] := (strIn_iff_mem s2 [a]).mp hpa
      have hmb : s2 ∈ [b] := (strIn_iff_mem s2 [b]).mp hpb
      simp only [List.mem_singleton] at hma hmb
      exact hab (hma ▸ hmb)
    | na => rw [hcell] at hpa; cases hpa
    | num d => rw [hcell] at hpa; cases hpa
    | ts d => rw [hcell] at hpa; cases hpa
  · rw [hS.1]
    exact distinct_filtered_count df.rows i S

/-! ## Witnesses -/

/-- Witness for C1 at `sampleLines`: a scalar request yields a single
table, a list request a mapping keyed by the request, and `'all'` a
mapping keyed by the observed codes in ascending order. -/
theorem c1_result_shape_witness :
    (∃ df, DecodeResult.single sampleDF = .single df)
    ∧ (∃ m, DecodeResult.mapping [(2, sampleDF)] = .mapping m
        ∧ m.map Prod.fst = firstDedup [2] ∧ ∀ k, k ∈ m.map Prod.fst ↔ k ∈ [(2 : ℤ)])
    ∧ (∃ m, DecodeResult.mapping sampleAllMapping = .mapping m
        ∧ m.map Prod.fst = sortedDedup [1, 2, 2, 2]
        ∧ (m.map Prod.fst).Pairwise (· < ·)
        ∧ ∀ k, k ∈ m.map Prod.fst ↔ k ∈ [(1 : ℤ), 2, 2, 2]) :=
  ⟨(c1_result_shape sampleLines .noCalls 50000).1 2 (.single sampleDF) (by decide),
   (c1_result_shape sampleLines .noCalls 50000).2.1 [2] (.mapping [(2, sampleDF)]) (by decide),
   (c1_result_shape sampleLines .noCalls 50000).2.2 [1, 2, 2, 2]
     (.mapping sampleAllMapping) (by decide) (by decide)⟩

/-- Witness for C2 at version 2.15 and record type 3. -/
theorem c2_version_gated_schema_witness :
    (∀ base, cols 3 = some base → colsAt [2, 15] 3 = some (base ++ gatedExtra [2, 15] 3))
    ∧ ("modeSCode" ∈ (colsAt [2, 15] 3).getD [] ↔ versionLe [2, 13] [2, 15] = true)
    ∧ ((3 : ℤ) = 3 →
        ∀ f ∈ ["sensorTrackNumberList", "spi", "dvs", "dupM3a", "tid"],
          (f ∈ (colsAt [2, 15] 3).getD [] ↔ versionLe [2, 15] [2, 15] = true)) :=
  c2_version_gated_schema [2, 15] 3 (by decide)

/-- Witness for C3 on a one-column altitude table with one numeric and one
missing cell. -/
theorem c3_altitude_scaling_witness :
    List.Forall₂ (fun r r2 => r2.getD 0 .na = cellMul100 (r.getD 0 .na))
      [[Cell.num ⟨80, 0⟩], [Cell.na]] c3out.rows
    ∧ cellMul100 .na = .na
    ∧ (∀ d : Dec, cellMul100 (.num d) = .num d.mul100)
    ∧ (∀ d : Dec, d.mul100.toRat = 100 * d.toRat) :=
  c3_altitude_scaling ["altitude"] [[Cell.num ⟨80, 0⟩], [Cell.na]] c3out 0
    (by decide) (by decide)

/-- Witness for C5 on a track-point-style line whose time field is `?`. -/
theorem c5_question_mark_missing_witness :
    (parseRawLine ["recType", "recTime"] "3,?").getD 1 (some "") = none
    ∧ (∀ numeric : Bool, typeCell numeric none = .na)
    ∧ cellToDatetime .na = .ok .na :=
  c5_question_mark_missing ["recType", "recTime"] "3,?" 1 (by decide) (by decide)

/-- Witness for the amended C7 on the two-field type-0 schema: a long line
is truncated to the schema, a short line is padded with missing values. -/
theorem c7_leading_fields_witness :
    (parseRawFields ["recType", "comment"] ["0"]).length = ["recType", "comment"].length
    ∧ (parseRawFields ["recType", "comment"] ["0"]).getD 0 (some "")
        = parseCellRaw (["0"].getD 0 "")
    ∧ (parseRawFields ["recType", "comment"] ["0"]).getD 1 (some "") = none
    ∧ parseRawFields ["recType", "comment"] ["0", "hello", "x"]
        = parseRawFields ["recType", "comment"] ["0", "hello"] :=
  ⟨(c7_leading_fields ["recType", "comment"] ["0"]).1,
   (c7_leading_fields ["recType", "comment"] ["0"]).2.1 0 (by decide) (by decide),
   (c7_leading_fields ["recType", "comment"] ["0"]).2.2.1 1 (by decide) (by decide),
   (c7_leading_fields ["recType", "comment"] ["0", "hello", "x"]).2.2.2 ["0", "hello"]
     (by decide)⟩

/-- Witness for the amended C8: version detection ignores later lines, a
two-field first line makes the decode call fail with a format error, and a
three-field first line always yields the parsed version. -/
theorem c8_version_detection_witness :
    detectVersion ["1,EV,2.6", "x"] = detectVersion ["1,EV,2.6", "y"]
    ∧ (∃ msg, decode ["1,EV"] (.scalar 3) .noCalls 50000 = .error (.formatError msg))
    ∧ detectVersion ["1,EV,2.6"]
        = .ok (parseVersion ((splitCh ',' "1,EV,2.6").getD 2 "")) :=
  ⟨c8_version_detection.1 "1,EV,2.6" ["x"] ["y"],
   c8_version_detection.2.1 "1,EV" [] (.scalar 3) .noCalls 50000 (by decide),
   c8_version_detection.2.2.1 "1,EV,2.6" [] (by decide)⟩

/-- Witness for C9 on a concrete file system. -/
theorem c9_deterministic_read_only_witness :
    (read_iff_file c9fs "a.iff" (.scalar 0) .noCalls 50000).1 = c9fs
    ∧ read_iff_file c9fs "a.iff" (.scalar 0) .noCalls 50000
        = read_iff_file c9fs "a.iff" (.scalar 0) .noCalls 50000
    ∧ (read_iff_file c9fs "a.iff" (.scalar 0) .noCalls 50000).2
        = (read_iff_file c9fs "a.iff" (.scalar 0) .noCalls 50000).2 :=
  ⟨(c9_deterministic_read_only c9fs "a.iff" (.scalar 0) .noCalls 50000).1,
   (c9_deterministic_read_only c9fs "a.iff" (.scalar 0) .noCalls 50000).2.1,
   (c9_deterministic_read_only c9fs "a.iff" (.scalar 0) .noCalls 50000).2.2 c9fs rfl⟩

/-- Witness for C10: requesting record type 0 of `c10file` with a callsign
filter fails with the `AcId` key error. -/
theorem c10_no_acid_column_witness :
    decode c10file (.scalar 0) (.one "X") 50000 = .error (.keyError "AcId") :=
  c10_no_acid_column.1 c10file [2, 6] [1, 0, 5, 6] 0 ["X"] (.one "X") 50000
    (by decide) (by decide) (by decide) (by decide) (by decide) (by decide)

/-- Witness for C4 on `sampleLines`: filtering with the set of both
callsigns keeps every row, the two singleton filters partition the rows,
and the distinct-callsign count matches the set entries present. -/
theorem c4_callsign_filtering_witness :
    sampleDF.rows = sampleDF.rows.filter (fun r => cellIsIn (r.getD 7 .na) ["AAA", "BBB"])
    ∧ sampleDF.rows.length = sampleDF_A.rows.length + sampleDF_B.rows.length
    ∧ (sampleDF.rows.map (fun r => r.getD 7 .na)).toFinset.card
        = (["AAA", "BBB"].toFinset.filter
            (fun s => Cell.str s ∈ (sampleDF.rows.map (fun r => r.getD 7 .na)).toFinset)).card :=
  c4_callsign_filtering sampleLines 50000 2 ["AAA", "BBB"] "AAA" "BBB"
    sampleDF sampleDF sampleDF_A sampleDF_B sampleDF 7
    (by decide) (by decide) (by decide) (by decide) (by decide) (by decide) (by decide)

end IffReader
